

import Mathlib

set_option maxHeartbeats 2000000

set_option maxRecDepth 8000

/-!
Verification development for the Go N-queens solver collection
(greedy hill climbing, simulated annealing, genetic algorithm).

Boards are `List Int` of length `n`, index = column, value = row, exactly as the
Go `[]int` slices.  The global `math/rand` source is modelled by two draw
streams: one of naturals (consumed by `rand.Intn`, reduced `% k`) and one of
rationals (consumed by `rand.Float64`).  Streams are passed in and returned,
mirroring the sequential consumption of the shared source.  `math.Exp` is kept
abstract as a parameter `expFn` of the simulated-annealing development.
-/

/-- The package-level `abs` helper from the Go sources. -/
def goAbs (x : Int) : Int := if x < 0 then -x else x

/-- Model of the shared `math/rand` source: a stream of natural draws (for
`rand.Intn`) and a stream of rational draws (for `rand.Float64`). -/
structure Rng where
  ints : Nat → Nat
  floats : Nat → Rat

/-- `rand.Intn k`: consume one natural draw, reduced into `[0, k)`. -/
def Rng.intn (r : Rng) (k : Nat) : Nat × Rng :=
  (r.ints 0 % k, { r with ints := fun i => r.ints (i + 1) })

/-- `rand.Float64()`: consume one rational draw. -/
def Rng.float (r : Rng) : Rat × Rng :=
  (r.floats 0, { r with floats := fun i => r.floats (i + 1) })

/-- `rand.Perm n`, following the Go standard library implementation
(Fisher-Yates: `m[i] = m[j]; m[j] = i` for `j = Intn(i+1)`). -/
def randPerm (n : Nat) (r : Rng) : List Int × Rng :=
  (List.range' 1 (n - 1)).foldl
    (fun acc i =>
      let (j, r') := acc.2.intn (i + 1)
      let m := acc.1
      ((m.set i (m.getD j 0)).set j (Int.ofNat i), r'))
    (List.replicate n 0, r)

namespace GreedySolver

/-- `GreedySolver.countConflicts`, the full pairwise conflict count. -/
def countConflicts (n : Nat) (board : List Int) : Nat :=
  (List.range n).foldl
    (fun c i =>
      (List.range' (i + 1) (n - (i + 1))).foldl
        (fun c2 j =>
          let c3 := if board.getD i 0 = board.getD j 0 then c2 + 1 else c2
          if goAbs (board.getD i 0 - board.getD j 0) = goAbs ((i : Int) - (j : Int))
          then c3 + 1 else c3)
        c)
    0

end GreedySolver

namespace SimulatedAnnealingSolver

/-- `SimulatedAnnealingSolver.calculateCostForBoard`. -/
def calculateCostForBoard (n : Nat) (board : List Int) : Nat :=
  (List.range n).foldl
    (fun c i =>
      (List.range' (i + 1) (n - (i + 1))).foldl
        (fun c2 j =>
          let c3 := if board.getD i 0 = board.getD j 0 then c2 + 1 else c2
          if goAbs (board.getD i 0 - board.getD j 0) = goAbs ((i : Int) - (j : Int))
          then c3 + 1 else c3)
        c)
    0

/-- `SimulatedAnnealingSolver.calculateConflictsForPosition`: conflicts of the
queen in column `col` against every other column. -/
def calculateConflictsForPosition (n : Nat) (board : List Int) (col : Nat) : Nat :=
  (List.range n).foldl
    (fun c j =>
      if j ≠ col then
        let c2 := if board.getD col 0 = board.getD j 0 then c + 1 else c
        if goAbs (board.getD col 0 - board.getD j 0) = goAbs ((col : Int) - (j : Int))
        then c2 + 1 else c2
      else c)
    0

end SimulatedAnnealingSolver

namespace GeneticSolver

/-- `GeneticSolver.calculateFitness`. -/
def calculateFitness (n : Nat) (chromosome : List Int) : Nat :=
  (List.range n).foldl
    (fun c i =>
      (List.range' (i + 1) (n - (i + 1))).foldl
        (fun c2 j =>
          let c3 := if chromosome.getD i 0 = chromosome.getD j 0 then c2 + 1 else c2
          if goAbs (chromosome.getD i 0 - chromosome.getD j 0) = goAbs ((i : Int) - (j : Int))
          then c3 + 1 else c3)
        c)
    0

/-- `GeneticSolver.calculateConflictsForPosition` (the GA keeps its own copy). -/
def calculateConflictsForPosition (n : Nat) (chromosome : List Int) (col : Nat) : Nat :=
  (List.range n).foldl
    (fun c j =>
      if j ≠ col then
        let c2 := if chromosome.getD col 0 = chromosome.getD j 0 then c + 1 else c
        if goAbs (chromosome.getD col 0 - chromosome.getD j 0) = goAbs ((col : Int) - (j : Int))
        then c2 + 1 else c2
      else c)
    0

end GeneticSolver

/-- Contribution of the ordered pair `(i, j)` to the pairwise conflict count:
one for a shared row, one for a shared diagonal. -/
def pairContrib (b : List Int) (i j : Nat) : Nat :=
  (if b.getD i 0 = b.getD j 0 then 1 else 0) +
  (if goAbs (b.getD i 0 - b.getD j 0) = goAbs ((i : Int) - (j : Int)) then 1 else 0)

/-- Spec-side count: pairs `i < j` sharing a row. -/
def specRowPairs (n : Nat) (b : List Int) : Finset (Nat × Nat) :=
  (Finset.range n ×ˢ Finset.range n).filter fun p =>
    p.1 < p.2 ∧ b.getD p.1 0 = b.getD p.2 0

/-- Spec-side count: pairs `i < j` sharing a diagonal. -/
def specDiagPairs (n : Nat) (b : List Int) : Finset (Nat × Nat) :=
  (Finset.range n ×ˢ Finset.range n).filter fun p =>
    p.1 < p.2 ∧ goAbs (b.getD p.1 0 - b.getD p.2 0) = goAbs ((p.1 : Int) - (p.2 : Int))

/-- Spec-side total conflict count: row pairs plus diagonal pairs. -/
def specConflicts (n : Nat) (b : List Int) : Nat :=
  (specRowPairs n b).card + (specDiagPairs n b).card

/-- The zero-conflict property from the spec: no two columns share a row or a
diagonal. -/
def NoConflicts (n : Nat) (b : List Int) : Prop :=
  ∀ i < n, ∀ j < n, i ≠ j →
    b.getD i 0 ≠ b.getD j 0 ∧ goAbs (b.getD i 0 - b.getD j 0) ≠ goAbs ((i : Int) - (j : Int))

/-- A board of the right length whose entries are legal rows. -/
def ValidBoard (n : Nat) (b : List Int) : Prop :=
  b.length = n ∧ ∀ x ∈ b, 0 ≤ x ∧ x < (n : Int)

instance (n : Nat) (b : List Int) : Decidable (NoConflicts n b) := by
  unfold NoConflicts; infer_instance

instance (n : Nat) (b : List Int) : Decidable (ValidBoard n b) := by
  unfold ValidBoard; infer_instance

/-! ### Fold-to-sum bridging lemmas -/

/-! ### The three pairwise counters agree with the spec-level pair count -/

/-! ### Small list helpers -/

/-! ### Exhaustive enumeration of small boards (for the unsolvable sizes 2 and 3) -/

/-- All lists of the given length whose entries lie in `[0, n)`. -/
def allBoards (n : Nat) : Nat → List (List Int)
  | 0 => [[]]
  | k + 1 =>
    ((List.range n).map Int.ofNat).flatMap fun v => (allBoards n k).map fun b => v :: b

/-! ### Greedy hill-climbing solver (greedy.go) -/

/-- The `GreedySolver` struct. -/
structure GreedyState where
  n : Nat
  board : List Int
  solution : List Int
  solved : Bool
  maxIterations : Nat
  rng : Rng

/-- `NewGreedySolver`. -/
def NewGreedySolver (n : Nat) (r : Rng) : GreedyState :=
  { n := n, board := List.replicate n 0, solution := [], solved := false,
    maxIterations := 10000, rng := r }

namespace GreedySolver

/-- Body of the `randomInit` loop: `g.board[i] = rand.Intn(g.n)`. -/
def randomInitStep (st : GreedyState) (i : Nat) : GreedyState :=
  let (v, r') := st.rng.intn st.n
  { st with board := st.board.set i (Int.ofNat v), rng := r' }

/-- `GreedySolver.randomInit`. -/
def randomInit (g : GreedyState) : GreedyState :=
  (List.range g.n).foldl randomInitStep g

/-- Inner loop body of the best-improvement sweep in `Solve`: try moving the
queen of column `col` to row `newRow`, keeping the accumulated best board and
best conflict count. -/
def tryMove (n : Nat) (board : List Int) (col : Nat) (acc : List Int × Nat)
    (newRow : Nat) : List Int × Nat :=
  if board.getD col 0 = Int.ofNat newRow then acc
  else
    let nb := board.set col (Int.ofNat newRow)
    let newConflicts := countConflicts n nb
    if newConflicts < acc.2 then (nb, newConflicts) else acc

/-- Outer loop body of the sweep: all candidate rows for one column. -/
def sweepCol (n : Nat) (board : List Int) (acc : List Int × Nat) (col : Nat) :
    List Int × Nat :=
  (List.range n).foldl (tryMove n board col) acc

/-- The full best-improvement sweep from `Solve`'s loop body, starting from
`bestBoard = board, bestConflicts = conflicts`. -/
def bestNeighbor (n : Nat) (board : List Int) (conflicts : Nat) : List Int × Nat :=
  (List.range n).foldl (sweepCol n board) (board, conflicts)

/-- The bounded iteration loop of `Solve`; the fuel is the remaining number of
iterations out of `maxIterations`. -/
def solveLoop : Nat → GreedyState → Bool × GreedyState
  | 0, g => (false, g)
  | fuel + 1, g =>
    let conflicts := countConflicts g.n g.board
    if conflicts = 0 then
      (true, { g with solution := g.board, solved := true })
    else
      let bn := bestNeighbor g.n g.board conflicts
      if bn.2 ≥ conflicts then solveLoop fuel (randomInit g)
      else solveLoop fuel { g with board := bn.1 }

/-- `GreedySolver.Solve`. -/
def Solve (g : GreedyState) : Bool × GreedyState :=
  solveLoop g.maxIterations (randomInit g)

/-- `GreedySolver.GetSolution`. -/
def GetSolution (g : GreedyState) : List Int := g.solution

/-- `GreedySolver.PrintSolution`, abstracting the printed characters: `none`
when no solution was found, otherwise the N-by-N grid of cells, `true` at a
queen marker (`"Q "`) and `false` at a blank (`". "`).  Line `i` of the output
is produced by the loop over `j` printing `Q` exactly when `solution[i] == j`. -/
def PrintSolution (g : GreedyState) : Option (List (List Bool)) :=
  if g.solved = false then none
  else some ((List.range g.n).map fun i =>
    (List.range g.n).map fun j => if g.solution.getD i 0 = Int.ofNat j then true else false)

/-- The accumulated pair of the sweep is either the untouched starting pair or a
genuine single-move candidate with its recorded conflict count. -/
def SweepAcc (n : Nat) (b : List Int) (conflicts : Nat) (acc : List Int × Nat) : Prop :=
  acc = (b, conflicts) ∨
    ∃ col < n, ∃ r < n, b.getD col 0 ≠ Int.ofNat r ∧
      acc.1 = b.set col (Int.ofNat r) ∧ acc.2 = countConflicts n acc.1

end GreedySolver

/-! ### Simulated annealing solver (simulated_annealing.go) -/

/-- The `SimulatedAnnealingSolver` struct.  Temperatures are modelled as exact
rationals; `0.99` and `0.01` are the cooling rate and temperature floor. -/
structure SAState where
  n : Nat
  board : List Int
  solution : List Int
  solved : Bool
  initialTemp : Rat
  coolingRate : Rat
  minTemp : Rat
  maxIterations : Nat
  restarts : Nat
  rng : Rng

/-- `NewSimulatedAnnealingSolver`. -/
def NewSimulatedAnnealingSolver (n : Nat) (r : Rng) : SAState :=
  { n := n, board := List.replicate n 0, solution := [], solved := false,
    initialTemp := ((n * n : Nat) : Rat), coolingRate := mkRat 99 100, minTemp := mkRat 1 100,
    maxIterations := n * 1000, restarts := 5, rng := r }

namespace SimulatedAnnealingSolver

/-- `SimulatedAnnealingSolver.smartInit`: overwrite the board with a random
permutation. -/
def smartInit (sa : SAState) : SAState :=
  let (perm, r') := randPerm sa.n sa.rng
  { sa with board := perm, rng := r' }

/-- `SimulatedAnnealingSolver.findConflictedQueens`: the columns with positive
column-scoped conflict count, in increasing order, exactly as the append loop
produces them. -/
def findConflictedQueens (sa : SAState) : List Nat :=
  (List.range sa.n).filter fun i => 0 < calculateConflictsForPosition sa.n sa.board i

/-- The `for pos1 == pos2 { pos2 = rand.Intn(sa.n) }` retry loop of neighbor
strategy 1.  The Go loop is unbounded; the model gives it fuel and returns
`none` when the fuel runs out without drawing a position distinct from `pos1`
(the Go program would still be spinning in that case). -/
def drawDistinct (n pos1 : Nat) : Nat → Rng → Option (Nat × Rng)
  | 0, _ => none
  | fuel + 1, r =>
    let (pos2, r') := r.intn n
    if pos1 = pos2 then drawDistinct n pos1 fuel r'
    else some (pos2, r')

/-- The row scan shared by neighbor strategies 2 and 3 (the Go code duplicates
this loop verbatim in both branches): for every `row ≠ neighbor[col]` evaluate
the column-scoped conflict count of the board with `col` moved to `row`, and
keep the first row achieving a strictly smaller count than the accumulator.
The accumulator is `(bestRow, minConflicts)`. -/
def scanStep (n : Nat) (neighbor : List Int) (col : Nat) (acc : Int × Nat)
    (row : Nat) : Int × Nat :=
  if (row : Int) ≠ neighbor.getD col 0 then
    let tempBoard := neighbor.set col (Int.ofNat row)
    let conflicts := calculateConflictsForPosition n tempBoard col
    if conflicts < acc.2 then (Int.ofNat row, conflicts) else acc
  else acc

def scanColumn (n : Nat) (neighbor : List Int) (col : Nat) (init : Int × Nat) :
    Int × Nat :=
  (List.range n).foldl (scanStep n neighbor col) init

/-- `SimulatedAnnealingSolver.generateSmartNeighbor`.  Strategy 1 (draw < 0.6):
swap two distinct random columns.  Strategy 2 (draw < 0.8): move a random
conflicted queen to the row from the scan started at a random row with
sentinel `n*n`.  Strategy 3: scan a uniformly random column starting from its
current row and count. -/
def generateSmartNeighbor (sa : SAState) (retryFuel : Nat) : Option (List Int × Rng) :=
  let neighbor := sa.board
  let (strategy, r1) := sa.rng.float
  if strategy < mkRat 3 5 then
    let (pos1, r2) := r1.intn sa.n
    match drawDistinct sa.n pos1 retryFuel r2 with
    | none => none
    | some (pos2, r3) =>
      some ((neighbor.set pos1 (neighbor.getD pos2 0)).set pos2 (neighbor.getD pos1 0), r3)
  else if strategy < mkRat 4 5 then
    let conflictedQueens := findConflictedQueens sa
    if 0 < conflictedQueens.length then
      let (ci, r2) := r1.intn conflictedQueens.length
      let col := conflictedQueens.getD ci 0
      let (br0, r3) := r2.intn sa.n
      let best := scanColumn sa.n neighbor col (Int.ofNat br0, sa.n * sa.n)
      some (neighbor.set col best.1, r3)
    else some (neighbor, r1)
  else
    let (col, r2) := r1.intn sa.n
    let best := scanColumn sa.n neighbor col
      (neighbor.getD col 0, calculateConflictsForPosition sa.n neighbor col)
    some (neighbor.set col best.1, r2)

/-- `SimulatedAnnealingSolver.acceptanceProbability`, with `math.Exp` kept
abstract as `expFn`. -/
def acceptanceProbability (expFn : Rat → Rat) (deltaCost : Int) (temperature : Rat) : Rat :=
  expFn (-(deltaCost : Rat) / temperature)

/-- The mutable loop state of one `singleRun`. -/
structure SARun where
  sa : SAState
  temperature : Rat
  currentCost : Nat
  bestCost : Nat
  bestBoard : List Int
  iter : Nat

/-- The accept-or-reject phase of one iteration of `singleRun`: Metropolis
acceptance (the `rand.Float64()` draw is only consumed when `deltaCost > 0`,
as in the short-circuiting Go condition), then best-solution tracking. -/
def saAccept (expFn : Rat → Rat) (run : SARun) (neighbor : List Int) (r1 : Rng) : SARun :=
  let neighborCost := calculateCostForBoard run.sa.n neighbor
  let deltaCost : Int := (neighborCost : Int) - (run.currentCost : Int)
  let step :=
    if deltaCost ≤ 0 then (true, r1)
    else
      let (u, r2) := r1.float
      (decide (acceptanceProbability expFn deltaCost run.temperature > u), r2)
  if step.1 then
    let run' := { run with
      sa := { run.sa with board := neighbor, rng := step.2 },
      currentCost := neighborCost }
    if run'.currentCost < run.bestCost then
      { run' with bestCost := run'.currentCost, bestBoard := run'.sa.board }
    else run'
  else { run with sa := { run.sa with rng := step.2 } }

/-- The cooling/recovery phase of one iteration: every 100 iterations, if the
current cost exceeds twice the best cost, reset to the best board and reheat
to half the initial temperature; otherwise apply the cooling multiplier. -/
def saCool (run : SARun) : SARun :=
  if run.iter % 100 = 0 ∧ run.bestCost * 2 < run.currentCost then
    { run with
      sa := { run.sa with board := run.bestBoard },
      currentCost := run.bestCost,
      temperature := run.sa.initialTemp * mkRat 1 2 }
  else { run with temperature := run.temperature * run.sa.coolingRate }

/-- The code after `singleRun`'s loop: force the board to the best board and
succeed exactly when the best cost is zero. -/
def saFinish (run : SARun) : Bool × SAState :=
  let sa' := { run.sa with board := run.bestBoard }
  if run.bestCost = 0 then
    (true, { sa' with solution := run.bestBoard, solved := true })
  else (false, sa')

/-- The bounded iteration loop of `singleRun`; fuel counts the remaining
iterations out of `maxIterations`, and the loop also stops when the
temperature reaches the floor. -/
def saLoop (expFn : Rat → Rat) (retryFuel : Nat) : Nat → SARun → Option (Bool × SAState)
  | 0, run => some (saFinish run)
  | fuel + 1, run =>
    if run.sa.minTemp < run.temperature then
      if run.currentCost = 0 then
        some (true, { run.sa with solution := run.sa.board, solved := true })
      else
        match generateSmartNeighbor run.sa retryFuel with
        | none => none
        | some (neighbor, r1) =>
          let run' := saCool (saAccept expFn run neighbor r1)
          saLoop expFn retryFuel fuel { run' with iter := run'.iter + 1 }
    else some (saFinish run)

/-- `SimulatedAnnealingSolver.singleRun`. -/
def singleRun (expFn : Rat → Rat) (retryFuel : Nat) (sa : SAState) : Option (Bool × SAState) :=
  let sa1 := smartInit sa
  let currentCost := calculateCostForBoard sa1.n sa1.board
  saLoop expFn retryFuel sa1.maxIterations
    { sa := sa1, temperature := sa1.initialTemp, currentCost := currentCost,
      bestCost := currentCost, bestBoard := sa1.board, iter := 0 }

/-- The restart loop of `SimulatedAnnealingSolver.Solve`. -/
def solveRestarts (expFn : Rat → Rat) (retryFuel : Nat) : Nat → SAState → Option (Bool × SAState)
  | 0, sa => some (false, sa)
  | k + 1, sa =>
    match singleRun expFn retryFuel sa with
    | none => none
    | some (true, sa') => some (true, sa')
    | some (false, sa') => solveRestarts expFn retryFuel k sa'

/-- `SimulatedAnnealingSolver.Solve`. -/
def Solve (expFn : Rat → Rat) (retryFuel : Nat) (sa : SAState) : Option (Bool × SAState) :=
  solveRestarts expFn retryFuel sa.restarts sa

/-- `SimulatedAnnealingSolver.GetSolution`. -/
def GetSolution (sa : SAState) : List Int := sa.solution

/-- `SimulatedAnnealingSolver.PrintSolution`, abstracted to the grid of queen
markers exactly as in `GreedySolver.PrintSolution`. -/
def PrintSolution (sa : SAState) : Option (List (List Bool)) :=
  if sa.solved = false then none
  else some ((List.range sa.n).map fun i =>
    (List.range sa.n).map fun j => if sa.solution.getD i 0 = Int.ofNat j then true else false)

end SimulatedAnnealingSolver

/-! ### Genetic algorithm solver (genetic.go) -/

/-- The `Individual` struct: a chromosome and its cached fitness. -/
structure Individual where
  chromosome : List Int
  fitness : Nat
deriving DecidableEq

/-- The Go zero value of `Individual` (as produced by `make([]Individual, n)`). -/
def zeroIndividual : Individual := { chromosome := [], fitness := 0 }

/-- The `GeneticSolver` struct. -/
structure GAState where
  n : Nat
  populationSize : Nat
  maxGenerations : Nat
  mutationRate : Rat
  crossoverRate : Rat
  population : List Individual
  solution : List Int
  solved : Bool
  restarts : Nat
  rng : Rng

/-- `NewGeneticSolver`: population size 80, raised to 120 for `n > 20` and 150
for `n > 40`; rates 0.15 and 0.85. -/
def NewGeneticSolver (n : Nat) (r : Rng) : GAState :=
  let popSize := if 40 < n then 150 else if 20 < n then 120 else 80
  { n := n, populationSize := popSize, maxGenerations := 200,
    mutationRate := mkRat 3 20, crossoverRate := mkRat 17 20,
    population := List.replicate popSize zeroIndividual,
    solution := [], solved := false, restarts := 5, rng := r }

namespace GeneticSolver

/-- `GeneticSolver.initializeIndividual`: a fresh random permutation chromosome
with the fitness field left at `0` (not recomputed). -/
def initializeIndividual (ga : GAState) (index : Nat) : GAState :=
  let (perm, r') := randPerm ga.n ga.rng
  { ga with
    population := ga.population.set index { chromosome := perm, fitness := 0 },
    rng := r' }

/-- `GeneticSolver.initializePopulation`. -/
def initializePopulation (ga : GAState) : GAState :=
  (List.range ga.populationSize).foldl initializeIndividual ga

/-- Insertion into a fitness-sorted list, stable among equal fitness. -/
def insertByFitness (x : Individual) : List Individual → List Individual
  | [] => [x]
  | y :: ys => if x.fitness < y.fitness then x :: y :: ys else y :: insertByFitness x ys

/-- Model of `sort.Slice(population, less fitness)`: a comparison sort by
ascending fitness (Go's sort leaves the order of equal-fitness individuals
unspecified; this model is the stable insertion sort). -/
def sortByFitness : List Individual → List Individual
  | [] => []
  | x :: xs => insertByFitness x (sortByFitness xs)

/-- `GeneticSolver.evaluatePopulation`: recompute every fitness, then sort
ascending by fitness. -/
def evaluatePopulation (ga : GAState) : GAState :=
  { ga with
    population := sortByFitness (ga.population.map fun ind =>
      { ind with fitness := calculateFitness ga.n ind.chromosome }) }

/-- `GeneticSolver.tournamentSelection`: draw `tournamentSize` random
individuals, keeping the first one of lowest cached fitness. -/
def tournamentSelection (ga : GAState) (r : Rng) : Individual × Rng :=
  let tournamentSize := if ga.populationSize < 5 then ga.populationSize else 5
  let (i0, r1) := r.intn ga.populationSize
  let best := ga.population.getD i0 zeroIndividual
  (List.range' 1 (tournamentSize - 1)).foldl
    (fun acc _ =>
      let (ik, r') := acc.2.intn ga.populationSize
      let candidate := ga.population.getD ik zeroIndividual
      if candidate.fitness < acc.1.fitness then (candidate, r') else (acc.1, r'))
    (best, r1)

/-- The deterministic core of `GeneticSolver.orderCrossover` once the segment
`[s, e]` has been drawn (`s ≤ e`): copy `parent1`'s segment verbatim, then fill
the remaining positions cyclically from just after `e` with `parent2`'s values
not already used, advancing the write index only on a write. -/
def orderCrossoverWith (n : Nat) (parent1 parent2 : List Int) (s e : Nat) : List Int :=
  let child0 := List.replicate n (0 : Int)
  let seg := (List.range' s (e + 1 - s)).foldl
    (fun c i => c.set i (parent1.getD i 0)) child0
  let used := (List.range' s (e + 1 - s)).map fun i => parent1.getD i 0
  ((List.range n).foldl
    (fun acc i =>
      let parent2Index := (e + 1 + i) % n
      let v := parent2.getD parent2Index 0
      if v ∈ used then acc
      else (acc.1.set acc.2 v, (acc.2 + 1) % n))
    (seg, (e + 1) % n)).1

/-- `GeneticSolver.orderCrossover`: draw `start` and `end`, swap when drawn
reversed, then run the core. -/
def orderCrossover (ga : GAState) (parent1 parent2 : List Int) (r : Rng) : List Int × Rng :=
  let (s0, r1) := r.intn ga.n
  let (e0, r2) := r1.intn ga.n
  let se := if e0 < s0 then (e0, s0) else (s0, e0)
  (orderCrossoverWith ga.n parent1 parent2 se.1 se.2, r2)

/-- `GeneticSolver.smartCrossover`. -/
def smartCrossover (ga : GAState) (parent1 parent2 : Individual) (r : Rng) : List Int × Rng :=
  orderCrossover ga parent1.chromosome parent2.chromosome r

/-- `GeneticSolver.smartMutation`: 50% swap, 30% conflict-directed repair with
three random attempts, otherwise (or when no column is conflicted) a single
uniformly random gene assignment. -/
def smartMutation (ga : GAState) (chromosome : List Int) (r : Rng) : List Int × Rng :=
  let (strategy, r1) := r.float
  if strategy < mkRat 1 2 then
    let (pos1, r2) := r1.intn ga.n
    let (pos2, r3) := r2.intn ga.n
    ((chromosome.set pos1 (chromosome.getD pos2 0)).set pos2 (chromosome.getD pos1 0), r3)
  else if strategy < mkRat 4 5 then
    let conflicts := (List.range ga.n).filter fun i =>
      0 < calculateConflictsForPosition ga.n chromosome i
    if 0 < conflicts.length then
      let (ci, r2) := r1.intn conflicts.length
      let col := conflicts.getD ci 0
      let init : Int × Nat :=
        (chromosome.getD col 0, calculateConflictsForPosition ga.n chromosome col)
      let res := (List.range 3).foldl
        (fun (acc : (Int × Nat) × Rng) _ =>
          let (testRow, r') := acc.2.intn ga.n
          if (testRow : Int) ≠ chromosome.getD col 0 then
            let conflicts2 := calculateConflictsForPosition ga.n
              (chromosome.set col (Int.ofNat testRow)) col
            if conflicts2 < acc.1.2 then ((Int.ofNat testRow, conflicts2), r')
            else (acc.1, r')
          else (acc.1, r'))
        (init, r2)
      (chromosome.set col res.1.1, res.2)
    else
      let (pos, r2) := r1.intn ga.n
      let (v, r3) := r2.intn ga.n
      (chromosome.set pos (Int.ofNat v), r3)
  else
    let (pos, r2) := r1.intn ga.n
    let (v, r3) := r2.intn ga.n
    (chromosome.set pos (Int.ofNat v), r3)

/-- One elite-copy step of `createNewGeneration`. -/
def cngElite (ga : GAState) (np : List Individual) (i : Nat) : List Individual :=
  np.set i
    { chromosome := (ga.population.getD i zeroIndividual).chromosome,
      fitness := (ga.population.getD i zeroIndividual).fitness }

/-- One child-construction step of `createNewGeneration`: crossover of two
tournament parents (probability `crossoverRate`) or a cloned tournament
parent, each optionally mutated, written into slot `i` with fitness `0`. -/
def cngFill (ga : GAState) (acc : List Individual × Rng) (i : Nat) : List Individual × Rng :=
  let (c, r1) := acc.2.float
  if c < ga.crossoverRate then
    let (parent1, r2) := tournamentSelection ga r1
    let (parent2, r3) := tournamentSelection ga r2
    let (child, r4) := smartCrossover ga parent1 parent2 r3
    let (m, r5) := r4.float
    let mc := if m < ga.mutationRate then smartMutation ga child r5 else (child, r5)
    (acc.1.set i { chromosome := mc.1, fitness := 0 }, mc.2)
  else
    let (parent, r2) := tournamentSelection ga r1
    let (m, r3) := r2.float
    let mc := if m < ga.mutationRate then smartMutation ga parent.chromosome r3
      else (parent.chromosome, r3)
    (acc.1.set i { chromosome := mc.1, fitness := 0 }, mc.2)

/-- The clamped elite count `min 10 (max 2 (popSize/10))` of
`createNewGeneration`. -/
def cngEliteSize (ga : GAState) : Nat :=
  let eliteSize0 := ga.populationSize / 10
  let eliteSize1 := if eliteSize0 < 2 then 2 else eliteSize0
  if 10 < eliteSize1 then 10 else eliteSize1

/-- `GeneticSolver.createNewGeneration`: elitism (clamped `popSize/10`), then
fill each remaining slot by `cngFill`. -/
def createNewGeneration (ga : GAState) : List Individual × Rng :=
  let eliteSize := cngEliteSize ga
  let withElites := (List.range eliteSize).foldl (cngElite ga)
    (List.replicate ga.populationSize zeroIndividual)
  (List.range' eliteSize (ga.populationSize - eliteSize)).foldl (cngFill ga)
    (withElites, ga.rng)

/-- Outcome of one generation of `singleRun`'s loop: immediate success, early
halt on stagnation, or the carried state for the next generation
(state, generations without improvement, best fitness ever). -/
inductive GAOutcome where
  | finished : Bool × GAState → GAOutcome
  | halted : GAState → GAOutcome
  | stepped : GAState → Nat → Nat → GAOutcome

/-- The prefix of one generation body: evaluate and sort, check for success,
update the stagnation counters, abandon the run past 50 stagnant generations,
and past 20 stagnant generations raise the mutation rate to 0.3 and
reinitialize the worst fifth of the population (with stale fitness 0). -/
def gaBodyPre (st : GAState) (gwi bfe : Nat) : GAOutcome :=
  let st1 := evaluatePopulation st
  let best0 := st1.population.getD 0 zeroIndividual
  if best0.fitness = 0 then
    .finished (true, { st1 with solution := best0.chromosome, solved := true })
  else
    let track := if best0.fitness < bfe then (best0.fitness, 0) else (bfe, gwi + 1)
    if 50 < track.2 then .halted st1
    else
      let st2 :=
        if 20 < track.2 then
          (List.range' (st1.populationSize * 4 / 5)
            (st1.populationSize - st1.populationSize * 4 / 5)).foldl
            initializeIndividual { st1 with mutationRate := mkRat 3 10 }
        else { st1 with mutationRate := mkRat 3 20 }
      .stepped st2 track.2 track.1

/-- One full generation: the body prefix followed by building the next
generation. -/
def gaGenStep (st : GAState) (gwi bfe : Nat) : GAOutcome :=
  match gaBodyPre st gwi bfe with
  | .stepped st2 gwi' bfe' =>
    let np := createNewGeneration st2
    .stepped { st2 with population := np.1, rng := np.2 } gwi' bfe'
  | o => o

/-- The final evaluate-and-check after the generation loop. -/
def gaFinish (st : GAState) : Bool × GAState :=
  let st1 := evaluatePopulation st
  let best0 := st1.population.getD 0 zeroIndividual
  if best0.fitness = 0 then
    (true, { st1 with solution := best0.chromosome, solved := true })
  else (false, st1)

/-- The generation loop of `singleRun`; fuel counts remaining generations. -/
def gaGenLoop : Nat → GAState → Nat → Nat → Bool × GAState
  | 0, st, _, _ => gaFinish st
  | fuel + 1, st, gwi, bfe =>
    match gaGenStep st gwi bfe with
    | .finished res => res
    | .halted st1 => gaFinish st1
    | .stepped st' gwi' bfe' => gaGenLoop fuel st' gwi' bfe'

/-- `GeneticSolver.singleRun`. -/
def singleRun (ga : GAState) : Bool × GAState :=
  let ga1 := initializePopulation ga
  gaGenLoop ga1.maxGenerations ga1 0 (ga1.n * ga1.n)

/-- The restart loop of `GeneticSolver.Solve`. -/
def solveRestartsGA : Nat → GAState → Bool × GAState
  | 0, ga => (false, ga)
  | k + 1, ga =>
    match singleRun ga with
    | (true, ga') => (true, ga')
    | (false, ga') => solveRestartsGA k ga'

/-- `GeneticSolver.Solve`. -/
def Solve (ga : GAState) : Bool × GAState := solveRestartsGA ga.restarts ga

/-- `GeneticSolver.GetSolution`. -/
def GetSolution (ga : GAState) : List Int := ga.solution

/-- `GeneticSolver.PrintSolution`, abstracted to the grid of queen markers
exactly as in `GreedySolver.PrintSolution`. -/
def PrintSolution (ga : GAState) : Option (List (List Bool)) :=
  if ga.solved = false then none
  else some ((List.range ga.n).map fun i =>
    (List.range ga.n).map fun j => if ga.solution.getD i 0 = Int.ofNat j then true else false)

end GeneticSolver


/-! ### Concrete random sources and states used by the claim analyses -/

/-- A random source whose natural draws are all `a` and whose rational draws
are all `q`. -/
def constRng (a : Nat) (q : Rat) : Rng := { ints := fun _ => a, floats := fun _ => q }

/-- The list `[0, 1, ..., n-1]` as rows. -/
def rangeRows (n : Nat) : List Int := (List.range n).map Int.ofNat

/-- A concrete 3-queens solver state for analysing neighbor strategy 2: board
`[1, 1, 2]`, the float stream always draws `0.7` (selecting strategy 2) and
the natural stream always draws `0`. -/
def saC7 : SAState :=
  { NewSimulatedAnnealingSolver 3 (constRng 0 (mkRat 7 10)) with board := [1, 1, 2] }

/-- The driving source of the concrete genetic-algorithm run for the cached
fitness analysis: every `Intn` draw is 64 and every float draw is 0. -/
def rngC6 : Rng := constRng 64 0

/-- The population reached by the concrete run after any full generation:
8 elites carrying their computed fitness 1 and 72 rebuilt individuals with
fitness field 0, all with chromosome `[1, 0]`. -/
def c6PopMix : List Individual :=
  List.replicate 8 { chromosome := [1, 0], fitness := 1 } ++
    List.replicate 72 { chromosome := [1, 0], fitness := 0 }

/-- The concrete run state at the start of every generation from 1 on. -/
def c6State : GAState :=
  { n := 2, populationSize := 80, maxGenerations := 200, mutationRate := mkRat 3 20,
    crossoverRate := mkRat 17 20, population := c6PopMix, solution := [], solved := false,
    restarts := 5, rng := rngC6 }

/-- The population passed to `createNewGeneration` in the stagnation
generation 21 of the concrete run: the evaluated population with the worst
fifth (indices 64-79) reinitialized, their fitness fields stale at 0. -/
def c6PopReinit : List Individual :=
  List.replicate 64 { chromosome := [1, 0], fitness := 1 } ++
    List.replicate 16 { chromosome := [1, 0], fitness := 0 }

/-- The full solver state at the point where generation 21 of the concrete run
calls `createNewGeneration`. -/
def c6StateReinit : GAState := { c6State with population := c6PopReinit, mutationRate := mkRat 3 10 }

/-- A natural-draw stream for the greedy solver at `n = 4` that initializes the
board directly to the solution `[1, 3, 0, 2]`. -/
def rngC10 : Rng := { ints := fun i => [1, 3, 0, 2].getD i 0, floats := fun _ => 0 }

/-- The acceptance condition of claim C4: the cost difference is non-positive,
or the Metropolis probability strictly exceeds the fresh uniform draw `u`. -/
def SimulatedAnnealingSolver.acceptCondition (expFn : Rat → Rat)
    (run : SimulatedAnnealingSolver.SARun) (neighbor : List Int) (u : Rat) : Prop :=
  ((SimulatedAnnealingSolver.calculateCostForBoard run.sa.n neighbor : Int)
      - (run.currentCost : Int)) ≤ 0 ∨
    SimulatedAnnealingSolver.acceptanceProbability expFn
      ((SimulatedAnnealingSolver.calculateCostForBoard run.sa.n neighbor : Int)
        - (run.currentCost : Int)) run.temperature > u

/-- What the rendering actually produces: line `i` of the grid corresponds to
board column `i`, with the queen marker at character position `solution[i]`,
and every line carries exactly one marker. -/
def GridSpec (n : Nat) (sol : List Int) (G : List (List Bool)) : Prop :=
  G.length = n ∧
  (∀ i < n, (G.getD i []).length = n) ∧
  (∀ i < n, ∀ j < n, ((G.getD i []).getD j false = true ↔ sol.getD i 0 = Int.ofNat j)) ∧
  (G.map fun row => row.countP id).sum = n

/-- A concrete greedy state at `N = 2` (board `[0, 0]`, one row conflict). -/
def gC3 : GreedyState := NewGreedySolver 2 (constRng 0 0)

/-- Loop invariant of `singleRun`: the current and best boards have length `n`
and the tracked costs are the true costs of those boards. -/
def SimulatedAnnealingSolver.SARunInv (run : SimulatedAnnealingSolver.SARun) : Prop :=
  run.sa.board.length = run.sa.n ∧
  run.bestBoard.length = run.sa.n ∧
  run.currentCost = SimulatedAnnealingSolver.calculateCostForBoard run.sa.n run.sa.board ∧
  run.bestCost = SimulatedAnnealingSolver.calculateCostForBoard run.sa.n run.bestBoard

/-- Both tracked boards have entries in `[0, n)`. -/
def SimulatedAnnealingSolver.SABoardsValid (run : SimulatedAnnealingSolver.SARun) : Prop :=
  (∀ x ∈ run.sa.board, 0 ≤ x ∧ x < (run.sa.n : Int)) ∧
  (∀ x ∈ run.bestBoard, 0 ≤ x ∧ x < (run.sa.n : Int))

/-- Every cached fitness equals the true fitness of its chromosome. -/
def GeneticSolver.Fresh (n : Nat) (pop : List Individual) : Prop :=
  ∀ ind ∈ pop, ind.fitness = GeneticSolver.calculateFitness n ind.chromosome

/-- A chromosome of the right length whose genes are legal rows. -/
def GeneticSolver.ChromOK (n : Nat) (ind : Individual) : Prop :=
  ind.chromosome.length = n ∧ ∀ x ∈ ind.chromosome, 0 ≤ x ∧ x < (n : Int)

/-- All chromosomes of the population are well-shaped. -/
def GeneticSolver.PopOK (n : Nat) (pop : List Individual) : Prop :=
  ∀ ind ∈ pop, GeneticSolver.ChromOK n ind

/-- Write the values `vs` cyclically into `c` starting at index `b % n`
(the write pointer of `orderCrossover`'s fill loop). -/
def setCyc (n : Nat) (c : List Int) (b : Nat) : List Int → List Int
  | [] => c
  | v :: vs => setCyc n (c.set (b % n) v) (b + 1) vs

namespace GeneticSolver

/-- The `used` list of `orderCrossover`: `parent1`'s values on `[s, e]`. -/
def crossUsed (p1 : List Int) (s e : Nat) : List Int :=
  (List.range' s (e + 1 - s)).map fun i => p1.getD i 0

/-- `parent2`'s values in cyclic order starting just after `e`. -/
def crossCyc (n : Nat) (p2 : List Int) (e : Nat) : List Int :=
  (List.range n).map fun i => p2.getD ((e + 1 + i) % n) 0

/-- The values `orderCrossover`'s fill loop writes, in write order: `parent2`'s
cyclic order with the already-used values dropped. -/
def crossFills (n : Nat) (p1 p2 : List Int) (s e : Nat) : List Int :=
  (crossCyc n p2 e).filter fun v => v ∉ crossUsed p1 s e

end GeneticSolver

/-! ### Theorems -/

theorem foldl_add_sum (f : Nat → Nat) (l : List Nat) : ∀ c : Nat,
    l.foldl (fun a x => a + f x) c = c + (l.map f).sum := by
  induction l with
  | nil => intro c; simp
  | cons x xs ih => intro c; simp [ih]; omega

theorem foldl_congr_fn {g h : Nat → Nat → Nat} (H : ∀ a x, g a x = h a x) (l : List Nat) :
    ∀ c, l.foldl g c = l.foldl h c := by
  induction l with
  | nil => intro c; rfl
  | cons x xs ih => intro c; rw [List.foldl_cons, List.foldl_cons, H, ih]

theorem sum_map_range' (f : Nat → Nat) : ∀ k a : Nat,
    ((List.range' a k).map f).sum = ∑ i ∈ Finset.range k, f (a + i) := by
  intro k
  induction k with
  | zero => intro a; simp
  | succ k ih =>
    intro a
    rw [List.range'_succ, List.map_cons, List.sum_cons, ih (a + 1), Finset.sum_range_succ']
    have h : ∀ i, f (a + 1 + i) = f (a + (i + 1)) := by
      intro i; congr 1; omega
    simp only [h, Nat.add_zero]
    exact Nat.add_comm _ _

theorem sum_map_range (f : Nat → Nat) (n : Nat) :
    ((List.range n).map f).sum = ∑ i ∈ Finset.range n, f i := by
  rw [List.range_eq_range', sum_map_range' f n 0]
  simp

theorem filter_lt_range (n i : Nat) :
    (Finset.range n).filter (fun j => i < j) = Finset.Ico (i + 1) n := by
  ext j
  simp only [Finset.mem_filter, Finset.mem_range, Finset.mem_Ico]
  omega

theorem cost_eq_Ico_sum (n : Nat) (b : List Int) :
    SimulatedAnnealingSolver.calculateCostForBoard n b
      = ∑ i ∈ Finset.range n, ∑ j ∈ Finset.Ico (i + 1) n, pairContrib b i j := by
  unfold SimulatedAnnealingSolver.calculateCostForBoard
  have inner : ∀ i c, (List.range' (i + 1) (n - (i + 1))).foldl
      (fun c2 j =>
        let c3 := if b.getD i 0 = b.getD j 0 then c2 + 1 else c2
        if goAbs (b.getD i 0 - b.getD j 0) = goAbs ((i : Int) - (j : Int))
        then c3 + 1 else c3) c
      = c + ∑ j ∈ Finset.Ico (i + 1) n, pairContrib b i j := by
    intro i c
    rw [foldl_congr_fn (h := fun c2 j => c2 + pairContrib b i j), foldl_add_sum,
      sum_map_range', Finset.sum_Ico_eq_sum_range]
    intro a x
    unfold pairContrib
    dsimp only
    split_ifs <;> omega
  rw [foldl_congr_fn (h := fun c i => c + ∑ j ∈ Finset.Ico (i + 1) n, pairContrib b i j)
      (H := fun c i => inner i c),
    foldl_add_sum, sum_map_range, Nat.zero_add]

theorem cost_eq_specConflicts (n : Nat) (b : List Int) :
    SimulatedAnnealingSolver.calculateCostForBoard n b = specConflicts n b := by
  rw [cost_eq_Ico_sum]
  unfold specConflicts specRowPairs specDiagPairs
  rw [Finset.card_filter, Finset.card_filter, Finset.sum_product, Finset.sum_product,
    ← Finset.sum_add_distrib]
  refine Finset.sum_congr rfl fun i _ => ?_
  rw [← Finset.sum_add_distrib, ← filter_lt_range n i, Finset.sum_filter]
  refine Finset.sum_congr rfl fun j _ => ?_
  by_cases hij : i < j <;>
    by_cases hR : b.getD i 0 = b.getD j 0 <;>
    by_cases hD : goAbs (b.getD i 0 - b.getD j 0) = goAbs ((i : Int) - (j : Int)) <;>
    simp [hij, hR, hD, pairContrib]

theorem countConflicts_eq_cost (n : Nat) (b : List Int) :
    GreedySolver.countConflicts n b = SimulatedAnnealingSolver.calculateCostForBoard n b := rfl

theorem fitness_eq_cost (n : Nat) (b : List Int) :
    GeneticSolver.calculateFitness n b = SimulatedAnnealingSolver.calculateCostForBoard n b := rfl

theorem goAbs_sub_comm (x y : Int) : goAbs (x - y) = goAbs (y - x) := by
  unfold goAbs; split <;> split <;> omega

theorem specConflicts_eq_zero_iff (n : Nat) (b : List Int) :
    specConflicts n b = 0 ↔ NoConflicts n b := by
  unfold specConflicts
  rw [Nat.add_eq_zero, Finset.card_eq_zero, Finset.card_eq_zero]
  unfold specRowPairs specDiagPairs
  rw [Finset.filter_eq_empty_iff, Finset.filter_eq_empty_iff]
  constructor
  · rintro ⟨hrow, hdiag⟩ i hi j hj hij
    rcases Nat.lt_or_ge i j with hlt | hge
    · have h1 := @hrow (i, j) (by simp [Finset.mem_product, Finset.mem_range, hi, hj])
      have h2 := @hdiag (i, j) (by simp [Finset.mem_product, Finset.mem_range, hi, hj])
      push_neg at h1 h2
      exact ⟨h1 hlt, h2 hlt⟩
    · have hlt : j < i := by omega
      have h1 := @hrow (j, i) (by simp [Finset.mem_product, Finset.mem_range, hi, hj])
      have h2 := @hdiag (j, i) (by simp [Finset.mem_product, Finset.mem_range, hi, hj])
      push_neg at h1 h2
      refine ⟨fun hEq => h1 hlt hEq.symm, fun hEq => h2 hlt ?_⟩
      rw [goAbs_sub_comm, hEq, goAbs_sub_comm]
  · intro h
    constructor
    · rintro ⟨i, j⟩ hp
      simp only [Finset.mem_product, Finset.mem_range] at hp
      rintro ⟨hij, hEq⟩
      exact (h i hp.1 j hp.2 (Nat.ne_of_lt hij)).1 hEq
    · rintro ⟨i, j⟩ hp
      simp only [Finset.mem_product, Finset.mem_range] at hp
      rintro ⟨hij, hEq⟩
      exact (h i hp.1 j hp.2 (Nat.ne_of_lt hij)).2 hEq

theorem pairContrib_comm (b : List Int) (i j : Nat) : pairContrib b i j = pairContrib b j i := by
  unfold pairContrib
  have h1 : (b.getD i 0 = b.getD j 0) = (b.getD j 0 = b.getD i 0) := propext eq_comm
  have h2 : (goAbs (b.getD i 0 - b.getD j 0) = goAbs ((i : Int) - (j : Int)))
      = (goAbs (b.getD j 0 - b.getD i 0) = goAbs ((j : Int) - (i : Int))) := by
    rw [goAbs_sub_comm (b.getD j 0) (b.getD i 0), goAbs_sub_comm ((j : Int)) ((i : Int))]
  simp only [h1, h2]

theorem cfp_eq_sum (n : Nat) (b : List Int) (col : Nat) :
    SimulatedAnnealingSolver.calculateConflictsForPosition n b col
      = ∑ j ∈ Finset.range n, if j ≠ col then pairContrib b col j else 0 := by
  unfold SimulatedAnnealingSolver.calculateConflictsForPosition
  rw [foldl_congr_fn (h := fun c j => c + if j ≠ col then pairContrib b col j else 0),
    foldl_add_sum, sum_map_range, Nat.zero_add]
  intro a x
  unfold pairContrib
  dsimp only
  split_ifs <;> omega

theorem posSum_eq_twice_cost (n : Nat) (b : List Int) :
    ∑ col ∈ Finset.range n, SimulatedAnnealingSolver.calculateConflictsForPosition n b col
      = 2 * SimulatedAnnealingSolver.calculateCostForBoard n b := by
  have cost_sum : SimulatedAnnealingSolver.calculateCostForBoard n b
      = ∑ i ∈ Finset.range n, ∑ j ∈ Finset.range n, if i < j then pairContrib b i j else 0 := by
    rw [cost_eq_Ico_sum]
    refine Finset.sum_congr rfl fun i _ => ?_
    rw [← filter_lt_range n i, Finset.sum_filter]
  have split_sum : ∀ col ∈ Finset.range n,
      SimulatedAnnealingSolver.calculateConflictsForPosition n b col
        = (∑ j ∈ Finset.range n, if col < j then pairContrib b col j else 0)
          + ∑ j ∈ Finset.range n, if j < col then pairContrib b col j else 0 := by
    intro col _
    rw [cfp_eq_sum, ← Finset.sum_add_distrib]
    refine Finset.sum_congr rfl fun j _ => ?_
    rcases Nat.lt_trichotomy col j with h | h | h
    · simp [h, Nat.ne_of_gt h, Nat.not_lt_of_lt h]
    · simp [h]
    · simp [h, Nat.ne_of_lt h, Nat.not_lt_of_lt h]
  rw [Finset.sum_congr rfl split_sum, Finset.sum_add_distrib]
  have flip : ∑ col ∈ Finset.range n, ∑ j ∈ Finset.range n,
      (if j < col then pairContrib b col j else 0)
      = ∑ col ∈ Finset.range n, ∑ j ∈ Finset.range n,
        (if col < j then pairContrib b col j else 0) := by
    rw [Finset.sum_comm]
    refine Finset.sum_congr rfl fun j _ => ?_
    refine Finset.sum_congr rfl fun col _ => ?_
    by_cases h : j < col <;> simp [h, pairContrib_comm]
  rw [flip, cost_sum]
  omega

theorem getD_set_self (l : List Int) (i : Nat) (a : Int) (h : i < l.length) :
    (l.set i a).getD i 0 = a := by
  simp [List.getD, List.getElem?_set, h]

theorem getD_set_other (l : List Int) (i j : Nat) (a : Int) (h : i ≠ j) :
    (l.set i a).getD j 0 = l.getD j 0 := by
  simp [List.getD, List.getElem?_set, h]

theorem getD_mem {α : Type} (l : List α) (i : Nat) (d : α) (h : i < l.length) :
    l.getD i d ∈ l := by
  rw [List.getD_eq_getElem _ _ h]; exact List.getElem_mem h

theorem mem_set_preserves {P : Int → Prop} (l : List Int) (i : Nat) (a : Int)
    (hl : ∀ x ∈ l, P x) (ha : P a) : ∀ x ∈ l.set i a, P x := by
  intro x hx
  rcases List.mem_or_eq_of_mem_set hx with h | h
  · exact hl x h
  · exact h ▸ ha

theorem mem_allBoards (n : Nat) : ∀ (k : Nat) (b : List Int), b.length = k →
    (∀ x ∈ b, 0 ≤ x ∧ x < (n : Int)) → b ∈ allBoards n k := by
  intro k
  induction k with
  | zero =>
    intro b hb _
    rw [List.length_eq_zero] at hb
    simp [allBoards, hb]
  | succ k ih =>
    intro b hb hx
    match b with
    | x :: xs =>
      simp only [allBoards, List.mem_flatMap, List.mem_map]
      have hx0 := hx x (by simp)
      refine ⟨x, ?_, xs, ih xs (by simpa using hb) (fun y hy => hx y (by simp [hy])), rfl⟩
      refine ⟨x.toNat, ?_, ?_⟩
      · rw [List.mem_range]; omega
      · rw [Int.ofNat_eq_coe]; exact Int.toNat_of_nonneg hx0.1

theorem cost_ne_zero_two : ∀ b ∈ allBoards 2 2,
    SimulatedAnnealingSolver.calculateCostForBoard 2 b ≠ 0 := by decide

theorem cost_ne_zero_three : ∀ b ∈ allBoards 3 3,
    SimulatedAnnealingSolver.calculateCostForBoard 3 b ≠ 0 := by decide

theorem cost_ne_zero_small (n : Nat) (hn : n = 2 ∨ n = 3) (b : List Int)
    (hb : ValidBoard n b) : SimulatedAnnealingSolver.calculateCostForBoard n b ≠ 0 := by
  rcases hn with rfl | rfl
  · exact cost_ne_zero_two b (mem_allBoards 2 2 b hb.1 hb.2)
  · exact cost_ne_zero_three b (mem_allBoards 3 3 b hb.1 hb.2)

namespace GreedySolver

theorem tryMove_snd_le (n : Nat) (b : List Int) (col : Nat) (acc : List Int × Nat)
    (r : Nat) : (tryMove n b col acc r).2 ≤ acc.2 := by
  unfold tryMove
  dsimp only
  split_ifs with h1 h2 <;> omega

theorem foldl_tryMove_snd_le (n : Nat) (b : List Int) (col : Nat) (l : List Nat) :
    ∀ acc, (l.foldl (tryMove n b col) acc).2 ≤ acc.2 := by
  induction l with
  | nil => intro acc; exact Nat.le_refl _
  | cons x xs ih =>
    intro acc
    rw [List.foldl_cons]
    exact Nat.le_trans (ih _) (tryMove_snd_le n b col acc x)

theorem sweepCol_snd_le (n : Nat) (b : List Int) (acc : List Int × Nat) (col : Nat) :
    (sweepCol n b acc col).2 ≤ acc.2 :=
  foldl_tryMove_snd_le n b col (List.range n) acc

theorem foldl_sweepCol_snd_le (n : Nat) (b : List Int) (l : List Nat) :
    ∀ acc, (l.foldl (sweepCol n b) acc).2 ≤ acc.2 := by
  induction l with
  | nil => intro acc; exact Nat.le_refl _
  | cons x xs ih =>
    intro acc
    rw [List.foldl_cons]
    exact Nat.le_trans (ih _) (sweepCol_snd_le n b acc x)

theorem bestNeighbor_snd_le (n : Nat) (b : List Int) (conflicts : Nat) :
    (bestNeighbor n b conflicts).2 ≤ conflicts :=
  foldl_sweepCol_snd_le n b (List.range n) (b, conflicts)

theorem foldl_tryMove_le_elem (n : Nat) (b : List Int) (col : Nat) (l : List Nat) :
    ∀ acc r, r ∈ l → b.getD col 0 ≠ Int.ofNat r →
      (l.foldl (tryMove n b col) acc).2 ≤ countConflicts n (b.set col (Int.ofNat r)) := by
  induction l with
  | nil => intro acc r hr; cases hr
  | cons x xs ih =>
    intro acc r hr hne
    rw [List.foldl_cons]
    rcases List.mem_cons.1 hr with rfl | hr'
    · refine Nat.le_trans (foldl_tryMove_snd_le n b col xs _) ?_
      unfold tryMove
      dsimp only
      rw [if_neg hne]
      split_ifs with h <;> omega
    · exact ih _ r hr' hne

theorem bestNeighbor_le_candidate (n : Nat) (b : List Int) (conflicts col r : Nat)
    (hc : col < n) (hr : r < n) (hne : b.getD col 0 ≠ Int.ofNat r) :
    (bestNeighbor n b conflicts).2 ≤ countConflicts n (b.set col (Int.ofNat r)) := by
  obtain ⟨s, t, hst⟩ := List.append_of_mem (List.mem_range.2 hc)
  unfold bestNeighbor
  rw [hst, List.foldl_append, List.foldl_cons]
  refine Nat.le_trans (foldl_sweepCol_snd_le n b t _) ?_
  exact foldl_tryMove_le_elem n b col (List.range n) _ r (List.mem_range.2 hr) hne

theorem tryMove_sweepAcc (n : Nat) (b : List Int) (conflicts col : Nat) (hc : col < n)
    (acc : List Int × Nat) (r : Nat) (hr : r < n) (h : SweepAcc n b conflicts acc) :
    SweepAcc n b conflicts (tryMove n b col acc r) := by
  unfold tryMove
  dsimp only
  split_ifs with h1 h2
  · exact h
  · exact Or.inr ⟨col, hc, r, hr, h1, rfl, rfl⟩
  · exact h

theorem foldl_tryMove_sweepAcc (n : Nat) (b : List Int) (conflicts col : Nat)
    (hc : col < n) (l : List Nat) (hl : ∀ x ∈ l, x < n) :
    ∀ acc, SweepAcc n b conflicts acc →
      SweepAcc n b conflicts (l.foldl (tryMove n b col) acc) := by
  induction l with
  | nil => intro acc h; exact h
  | cons x xs ih =>
    intro acc h
    rw [List.foldl_cons]
    exact ih (fun y hy => hl y (by simp [hy]))
      _ (tryMove_sweepAcc n b conflicts col hc acc x (hl x (by simp)) h)

theorem foldl_sweepCol_sweepAcc (n : Nat) (b : List Int) (conflicts : Nat)
    (l : List Nat) (hl : ∀ x ∈ l, x < n) :
    ∀ acc, SweepAcc n b conflicts acc →
      SweepAcc n b conflicts (l.foldl (sweepCol n b) acc) := by
  induction l with
  | nil => intro acc h; exact h
  | cons x xs ih =>
    intro acc h
    rw [List.foldl_cons]
    refine ih (fun y hy => hl y (by simp [hy])) _ ?_
    exact foldl_tryMove_sweepAcc n b conflicts x (hl x (by simp)) (List.range n)
      (fun y hy => List.mem_range.1 hy) acc h

theorem bestNeighbor_sweepAcc (n : Nat) (b : List Int) (conflicts : Nat) :
    SweepAcc n b conflicts (bestNeighbor n b conflicts) :=
  foldl_sweepCol_sweepAcc n b conflicts (List.range n)
    (fun y hy => List.mem_range.1 hy) (b, conflicts) (Or.inl rfl)

theorem bestNeighbor_fst_length (n : Nat) (b : List Int) (conflicts : Nat) :
    (bestNeighbor n b conflicts).1.length = b.length := by
  rcases bestNeighbor_sweepAcc n b conflicts with h | ⟨col, _, r, _, _, h1, _⟩
  · rw [h]
  · rw [h1, List.length_set]

theorem bestNeighbor_fst_entries (n : Nat) (b : List Int) (conflicts : Nat)
    (hb : ∀ x ∈ b, 0 ≤ x ∧ x < (n : Int)) :
    ∀ x ∈ (bestNeighbor n b conflicts).1, 0 ≤ x ∧ x < (n : Int) := by
  rcases bestNeighbor_sweepAcc n b conflicts with h | ⟨col, _, r, hr, _, h1, _⟩
  · rw [h]; exact hb
  · rw [h1]
    refine mem_set_preserves b col _ hb ?_
    constructor
    · exact Int.ofNat_nonneg r
    · rw [Int.ofNat_eq_coe]; omega

theorem randomInit_inv (l : List Nat) : ∀ g : GreedyState,
    (l.foldl randomInitStep g).n = g.n ∧
    (l.foldl randomInitStep g).board.length = g.board.length ∧
    (l.foldl randomInitStep g).solution = g.solution ∧
    (l.foldl randomInitStep g).solved = g.solved ∧
    (l.foldl randomInitStep g).maxIterations = g.maxIterations := by
  induction l with
  | nil => intro g; exact ⟨rfl, rfl, rfl, rfl, rfl⟩
  | cons x xs ih =>
    intro g
    rw [List.foldl_cons]
    obtain ⟨h1, h2, h3, h4, h5⟩ := ih (randomInitStep g x)
    refine ⟨h1, h2.trans ?_, h3, h4, h5⟩
    simp [randomInitStep]

theorem randomInit_n (g : GreedyState) : (randomInit g).n = g.n :=
  (randomInit_inv (List.range g.n) g).1

theorem randomInit_len (g : GreedyState) : (randomInit g).board.length = g.board.length :=
  (randomInit_inv (List.range g.n) g).2.1

theorem randomInit_entries_aux (l : List Nat) : ∀ g : GreedyState, 0 < g.n →
    (∀ x ∈ g.board, 0 ≤ x ∧ x < (g.n : Int)) →
    ∀ x ∈ (l.foldl randomInitStep g).board, 0 ≤ x ∧ x < (g.n : Int) := by
  induction l with
  | nil => intro g _ hb; exact hb
  | cons x xs ih =>
    intro g hn hb
    rw [List.foldl_cons]
    have hstep : ∀ y ∈ (randomInitStep g x).board, 0 ≤ y ∧ y < (g.n : Int) := by
      unfold randomInitStep
      dsimp only [Rng.intn]
      refine mem_set_preserves g.board x _ hb ?_
      refine ⟨Int.ofNat_nonneg _, ?_⟩
      rw [Int.ofNat_eq_coe]
      have := Nat.mod_lt (g.rng.ints 0) hn
      omega
    have := ih (randomInitStep g x) (by simpa [randomInitStep, Rng.intn] using hn) hstep
    simpa [randomInitStep, Rng.intn] using this

theorem randomInit_entries (g : GreedyState) (hn : 0 < g.n)
    (hb : ∀ x ∈ g.board, 0 ≤ x ∧ x < (g.n : Int)) :
    ∀ x ∈ (randomInit g).board, 0 ≤ x ∧ x < (g.n : Int) :=
  randomInit_entries_aux (List.range g.n) g hn hb

theorem greedy_solveLoop_sound (fuel : Nat) : ∀ g : GreedyState, g.board.length = g.n →
    (solveLoop fuel g).1 = true →
    (solveLoop fuel g).2.solution.length = g.n ∧
    countConflicts g.n (solveLoop fuel g).2.solution = 0 := by
  induction fuel with
  | zero =>
    intro g _ h
    simp only [solveLoop] at h
    cases h
  | succ fuel ih =>
    intro g hg
    simp only [solveLoop]
    by_cases h0 : countConflicts g.n g.board = 0
    · rw [if_pos h0]
      intro _
      exact ⟨hg, h0⟩
    · rw [if_neg h0]
      by_cases h1 : (bestNeighbor g.n g.board (countConflicts g.n g.board)).2
          ≥ countConflicts g.n g.board
      · rw [if_pos h1]
        intro h
        have hg' : (randomInit g).board.length = (randomInit g).n := by
          rw [randomInit_n, randomInit_len, hg]
        have hres := ih (randomInit g) hg' h
        rwa [randomInit_n] at hres
      · rw [if_neg h1]
        intro h
        have hg' : ({g with board := (bestNeighbor g.n g.board
            (countConflicts g.n g.board)).1} : GreedyState).board.length
            = ({g with board := (bestNeighbor g.n g.board
              (countConflicts g.n g.board)).1} : GreedyState).n := by
          dsimp only
          rw [bestNeighbor_fst_length, hg]
        exact ih _ hg' h

theorem greedy_solveLoop_small_false (n : Nat) (hn : n = 2 ∨ n = 3) (fuel : Nat) :
    ∀ g : GreedyState, g.n = n → ValidBoard n g.board →
      (solveLoop fuel g).1 = false := by
  induction fuel with
  | zero => intro g _ _; rfl
  | succ fuel ih =>
    intro g hgn hv
    simp only [solveLoop]
    have h0 : countConflicts g.n g.board ≠ 0 := by
      rw [countConflicts_eq_cost, hgn]
      exact cost_ne_zero_small n hn g.board hv
    rw [if_neg h0]
    have hnpos : 0 < g.n := by omega
    split_ifs with h1
    · refine ih (randomInit g) ((randomInit_n g).trans hgn) ⟨?_, ?_⟩
      · rw [randomInit_len]; exact hv.1
      · have h2 : ∀ x ∈ g.board, 0 ≤ x ∧ x < (g.n : Int) := by rw [hgn]; exact hv.2
        intro x hx
        have h3 := randomInit_entries g hnpos h2 x hx
        rw [hgn] at h3
        exact h3
    · refine ih _ hgn ⟨?_, ?_⟩
      · dsimp only
        rw [bestNeighbor_fst_length]; exact hv.1
      · dsimp only
        intro x hx
        have h2 : ∀ y ∈ g.board, 0 ≤ y ∧ y < (g.n : Int) := by rw [hgn]; exact hv.2
        have h3 := bestNeighbor_fst_entries g.n g.board
          (countConflicts g.n g.board) h2 x hx
        rw [hgn] at h3
        exact h3

end GreedySolver

/-! ### Claim C2 -/

/-- Claim C2: for every board of length N with entries in `[0, N)`, each of the
three solvers' full conflict counters (`GreedySolver.countConflicts`,
`SimulatedAnnealingSolver.calculateCostForBoard`,
`GeneticSolver.calculateFitness`) returns the number of pairs `i < j` sharing a
row plus the number of pairs `i < j` sharing a diagonal; the three functions
agree on every board, and the result is zero exactly when the board satisfies
the zero-conflict property. -/
theorem claim_C2 (n : Nat) (b : List Int) (hlen : b.length = n)
    (hvals : ∀ x ∈ b, 0 ≤ x ∧ x < (n : Int)) :
    GreedySolver.countConflicts n b = specConflicts n b ∧
    SimulatedAnnealingSolver.calculateCostForBoard n b = specConflicts n b ∧
    GeneticSolver.calculateFitness n b = specConflicts n b ∧
    GreedySolver.countConflicts n b = SimulatedAnnealingSolver.calculateCostForBoard n b ∧
    GeneticSolver.calculateFitness n b = SimulatedAnnealingSolver.calculateCostForBoard n b ∧
    (GreedySolver.countConflicts n b = 0 ↔ NoConflicts n b) := by
  refine ⟨?_, cost_eq_specConflicts n b, ?_, countConflicts_eq_cost n b,
    fitness_eq_cost n b, ?_⟩
  · rw [countConflicts_eq_cost]; exact cost_eq_specConflicts n b
  · rw [fitness_eq_cost]; exact cost_eq_specConflicts n b
  · rw [countConflicts_eq_cost, cost_eq_specConflicts]
    exact specConflicts_eq_zero_iff n b

/-- Witness for C2 at the concrete valid board `[1, 0]` with `N = 2`. -/
theorem claim_C2_witness :
    (([1, 0] : List Int).length = 2 ∧ ∀ x ∈ ([1, 0] : List Int), 0 ≤ x ∧ x < (2 : Int)) ∧
    (GreedySolver.countConflicts 2 [1, 0] = specConflicts 2 [1, 0] ∧
      SimulatedAnnealingSolver.calculateCostForBoard 2 [1, 0] = specConflicts 2 [1, 0] ∧
      GeneticSolver.calculateFitness 2 [1, 0] = specConflicts 2 [1, 0] ∧
      GreedySolver.countConflicts 2 [1, 0]
        = SimulatedAnnealingSolver.calculateCostForBoard 2 [1, 0] ∧
      GeneticSolver.calculateFitness 2 [1, 0]
        = SimulatedAnnealingSolver.calculateCostForBoard 2 [1, 0] ∧
      (GreedySolver.countConflicts 2 [1, 0] = 0 ↔ NoConflicts 2 [1, 0])) :=
  ⟨⟨by decide, by decide⟩, claim_C2 2 [1, 0] (by decide) (by decide)⟩

/-! ### Claim C8 -/

/-- Claim C8: for every board of length N with entries in `[0, N)`, the sum over
all columns of the column-scoped conflict count equals exactly twice the full
pairwise conflict count. -/
theorem claim_C8 (n : Nat) (b : List Int) (hlen : b.length = n)
    (hvals : ∀ x ∈ b, 0 ≤ x ∧ x < (n : Int)) :
    ∑ col ∈ Finset.range n, SimulatedAnnealingSolver.calculateConflictsForPosition n b col
      = 2 * SimulatedAnnealingSolver.calculateCostForBoard n b :=
  posSum_eq_twice_cost n b

/-- Witness for C8 at the concrete valid board `[1, 0]` with `N = 2`. -/
theorem claim_C8_witness :
    (([1, 0] : List Int).length = 2 ∧ ∀ x ∈ ([1, 0] : List Int), 0 ≤ x ∧ x < (2 : Int)) ∧
    ∑ col ∈ Finset.range 2, SimulatedAnnealingSolver.calculateConflictsForPosition 2 [1, 0] col
      = 2 * SimulatedAnnealingSolver.calculateCostForBoard 2 [1, 0] :=
  ⟨⟨by decide, by decide⟩, claim_C8 2 [1, 0] (by decide) (by decide)⟩

/-! ### Claim C4 -/

namespace SimulatedAnnealingSolver

theorem saAccept_eq_accepted (expFn : Rat → Rat) (run : SARun) (neighbor : List Int)
    (r1 : Rng) (hacc : acceptCondition expFn run neighbor (r1.floats 0)) :
    ∃ r2 : Rng, saAccept expFn run neighbor r1 =
      let run' := { run with
        sa := { run.sa with board := neighbor, rng := r2 },
        currentCost := calculateCostForBoard run.sa.n neighbor }
      if run'.currentCost < run.bestCost then
        { run' with bestCost := run'.currentCost, bestBoard := run'.sa.board }
      else run' := by
  by_cases hd : ((calculateCostForBoard run.sa.n neighbor : Int) - (run.currentCost : Int)) ≤ 0
  · refine ⟨r1, ?_⟩
    unfold saAccept
    dsimp only [Rng.float]
    rw [if_pos hd]
    rfl
  · rcases hacc with hacc | hacc
    · exact absurd hacc hd
    · refine ⟨{ r1 with floats := fun i => r1.floats (i + 1) }, ?_⟩
      unfold saAccept
      dsimp only [Rng.float]
      rw [if_neg hd, if_pos (decide_eq_true hacc)]

theorem saAccept_eq_rejected (expFn : Rat → Rat) (run : SARun) (neighbor : List Int)
    (r1 : Rng) (hacc : ¬ acceptCondition expFn run neighbor (r1.floats 0)) :
    ∃ r2 : Rng, saAccept expFn run neighbor r1 = { run with sa := { run.sa with rng := r2 } } := by
  unfold acceptCondition at hacc
  rw [not_or] at hacc
  refine ⟨{ r1 with floats := fun i => r1.floats (i + 1) }, ?_⟩
  unfold saAccept
  dsimp only [Rng.float]
  rw [if_neg hacc.1, if_neg (by simpa using hacc.2)]

/-- Claim C4: in every simulated-annealing iteration the generated neighbor
replaces the current board exactly when `deltaCost ≤ 0` or the Metropolis
probability `expFn(-deltaCost/temperature)` strictly exceeds the fresh uniform
draw; on acceptance the current cost becomes the neighbor's cost, and the
best board/cost are updated exactly when the new current cost is strictly
below the best cost of the run. -/
theorem claim_C4 (expFn : Rat → Rat) (run : SARun) (neighbor : List Int) (r1 : Rng) :
    (acceptCondition expFn run neighbor (r1.floats 0) →
      (saAccept expFn run neighbor r1).sa.board = neighbor ∧
      (saAccept expFn run neighbor r1).currentCost
        = calculateCostForBoard run.sa.n neighbor ∧
      (calculateCostForBoard run.sa.n neighbor < run.bestCost →
        (saAccept expFn run neighbor r1).bestCost
          = calculateCostForBoard run.sa.n neighbor ∧
        (saAccept expFn run neighbor r1).bestBoard = neighbor) ∧
      (¬ calculateCostForBoard run.sa.n neighbor < run.bestCost →
        (saAccept expFn run neighbor r1).bestCost = run.bestCost ∧
        (saAccept expFn run neighbor r1).bestBoard = run.bestBoard)) ∧
    (¬ acceptCondition expFn run neighbor (r1.floats 0) →
      (saAccept expFn run neighbor r1).sa.board = run.sa.board ∧
      (saAccept expFn run neighbor r1).currentCost = run.currentCost ∧
      (saAccept expFn run neighbor r1).bestCost = run.bestCost ∧
      (saAccept expFn run neighbor r1).bestBoard = run.bestBoard) := by
  constructor
  · intro hacc
    obtain ⟨r2, hres⟩ := saAccept_eq_accepted expFn run neighbor r1 hacc
    rw [hres]
    by_cases hb : calculateCostForBoard run.sa.n neighbor < run.bestCost
    · rw [if_pos hb]
      exact ⟨rfl, rfl, fun _ => ⟨rfl, rfl⟩, fun hnb => absurd hb hnb⟩
    · rw [if_neg hb]
      exact ⟨rfl, rfl, fun hb2 => absurd hb2 hb, fun _ => ⟨rfl, rfl⟩⟩
  · intro hacc
    obtain ⟨r2, hres⟩ := saAccept_eq_rejected expFn run neighbor r1 hacc
    rw [hres]
    exact ⟨rfl, rfl, rfl, rfl⟩

end SimulatedAnnealingSolver

/-! ### Claim C10 -/

theorem countP_marker_zero (s : Int) : ∀ n : Nat, ((n : Int) ≤ s ∨ s < 0) →
    (((List.range n).map fun j => if s = Int.ofNat j then true else false).countP id) = 0 := by
  intro n
  induction n with
  | zero => intro _; rfl
  | succ n ih =>
    intro h
    rw [List.range_succ, List.map_append, List.countP_append, ih (by omega)]
    have hne : s ≠ (n : Int) := by omega
    simp [Int.ofNat_eq_coe, hne]

theorem countP_marker_one (s : Int) : ∀ n : Nat, 0 ≤ s → s < (n : Int) →
    (((List.range n).map fun j => if s = Int.ofNat j then true else false).countP id) = 1 := by
  intro n
  induction n with
  | zero => intro _ h; omega
  | succ n ih =>
    intro h0 hlt
    rw [List.range_succ, List.map_append, List.countP_append]
    by_cases hs : s = Int.ofNat n
    · rw [countP_marker_zero s n (by rw [Int.ofNat_eq_coe] at hs; omega)]
      simp [hs]
    · rw [ih h0 (by rw [Int.ofNat_eq_coe] at hs; omega)]
      rw [Int.ofNat_eq_coe] at hs
      simp [Int.ofNat_eq_coe, hs]

theorem getD_map_range {α : Type} (f : Nat → α) (n i : Nat) (hi : i < n) (d : α) :
    (((List.range n).map f).getD i d) = f i := by
  rw [List.getD_eq_getElem _ _ (by simpa using hi)]
  simp

theorem grid_spec_of_valid (n : Nat) (sol : List Int)
    (hv : ∀ x ∈ sol, 0 ≤ x ∧ x < (n : Int)) (hlen : sol.length = n) :
    GridSpec n sol ((List.range n).map fun i =>
      (List.range n).map fun j => if sol.getD i 0 = Int.ofNat j then true else false) := by
  have hval : ∀ i < n, 0 ≤ sol.getD i 0 ∧ sol.getD i 0 < (n : Int) := by
    intro i hi
    exact hv _ (getD_mem sol i 0 (by omega))
  refine ⟨by simp, ?_, ?_, ?_⟩
  · intro i hi
    rw [getD_map_range _ n i hi]
    simp
  · intro i hi j hj
    rw [getD_map_range _ n i hi, getD_map_range _ n j hj]
    split_ifs with h
    · simpa using h
    · simpa using h
  · rw [List.map_map]
    have hcong : (List.range n).map
          ((fun row : List Bool => row.countP id) ∘ fun i =>
            (List.range n).map fun j => if sol.getD i 0 = Int.ofNat j then true else false)
        = (List.range n).map fun _ => 1 := by
      apply List.map_congr_left
      intro i hi
      rw [List.mem_range] at hi
      exact countP_marker_one _ n (hval i hi).1 (hval i hi).2
    rw [hcong]
    simp

/-- Counterexample to claim C10.  A real `GreedySolver` run at `N = 4` (the
stream `rngC10` makes `randomInit` produce the classic solution directly)
returns `true` with solution `[1, 3, 0, 2]`, but the printed grid does not
carry the marker of column `0` at grid position `(row = solution[0] = 1,
col = 0)`: the cell in line 1, position 0 is blank, because the code prints
line `i` from board column `i` with the marker at character `solution[i]` (the
transpose of the claimed layout). -/
theorem claim_C10_counterexample :
    (GreedySolver.Solve (NewGreedySolver 4 rngC10)).1 = true ∧
    (GreedySolver.Solve (NewGreedySolver 4 rngC10)).2.solution = [1, 3, 0, 2] ∧
    ¬ (∀ r < 4, ∀ c < 4,
        ((((GreedySolver.PrintSolution
              (GreedySolver.Solve (NewGreedySolver 4 rngC10)).2).getD []).getD r []).getD c false
          = true
          ↔ (GreedySolver.Solve (NewGreedySolver 4 rngC10)).2.solution.getD c 0 = (r : Int))) := by
  refine ⟨by decide, by decide, ?_⟩
  intro h
  have := h 1 (by decide) 0 (by decide)
  revert this
  decide

/-- Claim C10, amended: for every solver state whose `Solve` succeeded (with a
well-formed zero-or-more-conflict solution vector of legal rows), the rendering
produces an N-by-N grid with exactly N queen markers, but with the marker of
board column `i` on grid line `i` at character position `solution[i]` (the
transpose of the claimed `(row = solution[col], col)` layout); blanks fill
every other cell, and rendering is a pure projection of the solver state. -/
theorem claim_C10_amended :
    (∀ g : GreedyState, g.solved = true → g.solution.length = g.n →
      (∀ x ∈ g.solution, 0 ≤ x ∧ x < (g.n : Int)) →
      ∃ G, GreedySolver.PrintSolution g = some G ∧ GridSpec g.n g.solution G) ∧
    (∀ sa : SAState, sa.solved = true → sa.solution.length = sa.n →
      (∀ x ∈ sa.solution, 0 ≤ x ∧ x < (sa.n : Int)) →
      ∃ G, SimulatedAnnealingSolver.PrintSolution sa = some G ∧ GridSpec sa.n sa.solution G) ∧
    (∀ ga : GAState, ga.solved = true → ga.solution.length = ga.n →
      (∀ x ∈ ga.solution, 0 ≤ x ∧ x < (ga.n : Int)) →
      ∃ G, GeneticSolver.PrintSolution ga = some G ∧ GridSpec ga.n ga.solution G) := by
  refine ⟨?_, ?_, ?_⟩
  · intro g hs hlen hv
    refine ⟨_, ?_, grid_spec_of_valid g.n g.solution hv hlen⟩
    unfold GreedySolver.PrintSolution
    rw [if_neg (by simp [hs])]
  · intro sa hs hlen hv
    refine ⟨_, ?_, grid_spec_of_valid sa.n sa.solution hv hlen⟩
    unfold SimulatedAnnealingSolver.PrintSolution
    rw [if_neg (by simp [hs])]
  · intro ga hs hlen hv
    refine ⟨_, ?_, grid_spec_of_valid ga.n ga.solution hv hlen⟩
    unfold GeneticSolver.PrintSolution
    rw [if_neg (by simp [hs])]

/-- Witness for the amended C10 on the concrete successful greedy run at
`N = 4` (and on concrete solved simulated-annealing and genetic states). -/
theorem claim_C10_amended_witness :
    ((GreedySolver.Solve (NewGreedySolver 4 rngC10)).2.solved = true ∧
      (GreedySolver.Solve (NewGreedySolver 4 rngC10)).2.solution.length
        = (GreedySolver.Solve (NewGreedySolver 4 rngC10)).2.n ∧
      (∀ x ∈ (GreedySolver.Solve (NewGreedySolver 4 rngC10)).2.solution,
        0 ≤ x ∧ x < ((GreedySolver.Solve (NewGreedySolver 4 rngC10)).2.n : Int)) ∧
      ∃ G, GreedySolver.PrintSolution (GreedySolver.Solve (NewGreedySolver 4 rngC10)).2 = some G ∧
        GridSpec (GreedySolver.Solve (NewGreedySolver 4 rngC10)).2.n
          (GreedySolver.Solve (NewGreedySolver 4 rngC10)).2.solution G) ∧
    (({ NewSimulatedAnnealingSolver 4 (constRng 0 0) with
          solved := true, solution := [1, 3, 0, 2] } : SAState).solved = true ∧
      ∃ G, SimulatedAnnealingSolver.PrintSolution
          { NewSimulatedAnnealingSolver 4 (constRng 0 0) with
            solved := true, solution := [1, 3, 0, 2] } = some G ∧
        GridSpec 4 [1, 3, 0, 2] G) ∧
    (({ NewGeneticSolver 4 (constRng 0 0) with
          solved := true, solution := [1, 3, 0, 2] } : GAState).solved = true ∧
      ∃ G, GeneticSolver.PrintSolution
          { NewGeneticSolver 4 (constRng 0 0) with
            solved := true, solution := [1, 3, 0, 2] } = some G ∧
        GridSpec 4 [1, 3, 0, 2] G) := by
  refine ⟨⟨by decide, by decide, by decide, ?_⟩, ⟨by decide, ?_⟩, ⟨by decide, ?_⟩⟩
  · exact claim_C10_amended.1 _ (by decide) (by decide) (by decide)
  · exact claim_C10_amended.2.1 _ (by decide) (by decide) (by decide)
  · exact claim_C10_amended.2.2 _ (by decide) (by decide) (by decide)

/-! ### Claim C7 -/

/-- Counterexample to claim C7.  On the concrete state `saC7` (board
`[1, 1, 2]`, strategy draw `0.7` selecting strategy (b), conflicted column 0
chosen), the neighbor is `[0, 1, 2]` whose column-0 local conflict count is 2,
while keeping the current row 1 would give count 1: the adopted row does not
minimize the local conflict count over all rows `0..N-1`, because the scan
skips the column's current row. -/
theorem claim_C7_counterexample :
    (mkRat 3 5 ≤ saC7.rng.floats 0 ∧ saC7.rng.floats 0 < mkRat 4 5) ∧
    SimulatedAnnealingSolver.findConflictedQueens saC7 ≠ [] ∧
    (SimulatedAnnealingSolver.generateSmartNeighbor saC7 10).map (fun p => p.1)
      = some [0, 1, 2] ∧
    SimulatedAnnealingSolver.calculateConflictsForPosition 3 [0, 1, 2] 0 = 2 ∧
    SimulatedAnnealingSolver.calculateConflictsForPosition 3 (saC7.board.set 0 1) 0 = 1 ∧
    ¬ (∀ r < 3, SimulatedAnnealingSolver.calculateConflictsForPosition 3 [0, 1, 2] 0
        ≤ SimulatedAnnealingSolver.calculateConflictsForPosition 3
            (saC7.board.set 0 (Int.ofNat r)) 0) := by
  refine ⟨by decide, by decide, by decide, by decide, by decide, ?_⟩
  intro h
  have := h 1 (by decide)
  revert this
  decide

namespace SimulatedAnnealingSolver

theorem scanStep_snd_le (n : Nat) (b : List Int) (col : Nat) (acc : Int × Nat) (row : Nat) :
    (scanStep n b col acc row).2 ≤ acc.2 := by
  unfold scanStep
  dsimp only
  split_ifs <;> omega

theorem foldl_scanStep_snd_le (n : Nat) (b : List Int) (col : Nat) (l : List Nat) :
    ∀ acc, (l.foldl (scanStep n b col) acc).2 ≤ acc.2 := by
  induction l with
  | nil => intro acc; exact Nat.le_refl _
  | cons x xs ih =>
    intro acc
    rw [List.foldl_cons]
    exact Nat.le_trans (ih _) (scanStep_snd_le n b col acc x)

theorem foldl_scanStep_le_elem (n : Nat) (b : List Int) (col : Nat) (l : List Nat) :
    ∀ acc r, r ∈ l → (r : Int) ≠ b.getD col 0 →
      (l.foldl (scanStep n b col) acc).2
        ≤ calculateConflictsForPosition n (b.set col (Int.ofNat r)) col := by
  induction l with
  | nil => intro acc r hr; cases hr
  | cons x xs ih =>
    intro acc r hr hne
    rw [List.foldl_cons]
    rcases List.mem_cons.1 hr with rfl | hr'
    · refine Nat.le_trans (foldl_scanStep_snd_le n b col xs _) ?_
      unfold scanStep
      dsimp only
      rw [if_pos hne]
      split_ifs with h <;> omega
    · exact ih _ r hr' hne

/-- The scan accumulator is the starting pair or a row candidate with its
recorded count. -/
def ScanAcc (n : Nat) (b : List Int) (col : Nat) (init acc : Int × Nat) : Prop :=
  acc = init ∨
    ∃ r < n, (r : Int) ≠ b.getD col 0 ∧
      acc = (Int.ofNat r, calculateConflictsForPosition n (b.set col (Int.ofNat r)) col)

theorem foldl_scanStep_scanAcc (n : Nat) (b : List Int) (col : Nat) (init : Int × Nat)
    (l : List Nat) (hl : ∀ x ∈ l, x < n) :
    ∀ acc, ScanAcc n b col init acc →
      ScanAcc n b col init (l.foldl (scanStep n b col) acc) := by
  induction l with
  | nil => intro acc h; exact h
  | cons x xs ih =>
    intro acc h
    rw [List.foldl_cons]
    refine ih (fun y hy => hl y (by simp [hy])) _ ?_
    unfold scanStep
    dsimp only
    split_ifs with h1 h2
    · exact Or.inr ⟨x, hl x (by simp), h1, rfl⟩
    · exact h
    · exact h

theorem scanColumn_scanAcc (n : Nat) (b : List Int) (col : Nat) (init : Int × Nat) :
    ScanAcc n b col init (scanColumn n b col init) :=
  foldl_scanStep_scanAcc n b col init (List.range n)
    (fun y hy => List.mem_range.1 hy) init (Or.inl rfl)

theorem cfp_le_bound (n : Nat) (b : List Int) (col : Nat) (hc : col < n) :
    calculateConflictsForPosition n b col ≤ 2 * (n - 1) := by
  rw [cfp_eq_sum]
  calc ∑ j ∈ Finset.range n, (if j ≠ col then pairContrib b col j else 0)
      ≤ ∑ j ∈ Finset.range n, (if j ≠ col then 2 else 0) := by
        apply Finset.sum_le_sum
        intro j _
        by_cases h : j ≠ col
        · simp only [if_pos h]
          unfold pairContrib
          split_ifs <;> omega
        · simp [h]
    _ = 2 * (n - 1) := by
        rw [Finset.sum_eq_sum_diff_singleton_add (Finset.mem_range.2 hc)]
        have hcong : ∀ j ∈ Finset.range n \ {col}, (if j ≠ col then 2 else 0) = 2 := by
          intro j hj
          rw [Finset.mem_sdiff, Finset.mem_singleton] at hj
          simp [hj.2]
        rw [Finset.sum_congr rfl hcong, Finset.sum_const, smul_eq_mul,
          Finset.card_sdiff (by simp [Finset.mem_range.2 hc] :
            ({col} : Finset Nat) ⊆ Finset.range n), Finset.card_range, Finset.card_singleton]
        simp
        omega

end SimulatedAnnealingSolver

namespace SimulatedAnnealingSolver

theorem scanColumn_adopts (n : Nat) (b : List Int) (col : Nat) (hc : col < n) (hn : 2 ≤ n)
    (br0 : Nat) :
    ∃ rv : Nat, rv < n ∧ (rv : Int) ≠ b.getD col 0 ∧
      scanColumn n b col (Int.ofNat br0, n * n)
        = (Int.ofNat rv, calculateConflictsForPosition n (b.set col (Int.ofNat rv)) col) ∧
      ∀ r : Nat, r < n → (r : Int) ≠ b.getD col 0 →
        calculateConflictsForPosition n (b.set col (Int.ofNat rv)) col
          ≤ calculateConflictsForPosition n (b.set col (Int.ofNat r)) col := by
  obtain ⟨r0, hr0n, hr0ne⟩ : ∃ r0 : Nat, r0 < n ∧ (r0 : Int) ≠ b.getD col 0 := by
    by_cases h : b.getD col 0 = 0
    · refine ⟨1, by omega, ?_⟩
      rw [h]
      intro hh
      omega
    · refine ⟨0, by omega, ?_⟩
      intro hh
      apply h
      omega
  have hsent : calculateConflictsForPosition n (b.set col (Int.ofNat r0)) col < n * n := by
    have h1 := cfp_le_bound n (b.set col (Int.ofNat r0)) col hc
    have h2 : 2 * n ≤ n * n := Nat.mul_le_mul_right n hn
    omega
  have hle := foldl_scanStep_le_elem n b col (List.range n) (Int.ofNat br0, n * n) r0
    (List.mem_range.2 hr0n) hr0ne
  have hacc := scanColumn_scanAcc n b col (Int.ofNat br0, n * n)
  unfold scanColumn at hacc
  rcases hacc with heq | ⟨rv, hrvn, hrvne, heq⟩
  · exfalso
    rw [heq] at hle
    dsimp only at hle
    omega
  · refine ⟨rv, hrvn, hrvne, ?_, ?_⟩
    · unfold scanColumn
      exact heq
    · intro r hr hrne
      have h3 := foldl_scanStep_le_elem n b col (List.range n) (Int.ofNat br0, n * n) r
        (List.mem_range.2 hr) hrne
      rw [heq] at h3
      exact h3

/-- Claim C7, amended: when the strategy draw lies in `[0.6, 0.8)` and some
column is in conflict (with `N ≥ 2`), the neighbor differs from the current
board only in the randomly chosen conflicted column `col`, whose new row is
different from its current row and minimizes the column-scoped conflict count
over all rows other than the current row (the scan loop skips the current
row, so the current row itself is not a candidate — it is not a minimum over
all rows 0..N-1). -/
theorem claim_C7_amended (sa : SAState) (retryFuel : Nat)
    (hlo : mkRat 3 5 ≤ sa.rng.floats 0) (hhi : sa.rng.floats 0 < mkRat 4 5)
    (hconf : findConflictedQueens sa ≠ []) (hn : 2 ≤ sa.n) :
    ∃ col ∈ findConflictedQueens sa, ∃ rv : Nat, ∃ r' : Rng,
      rv < sa.n ∧ (rv : Int) ≠ sa.board.getD col 0 ∧
      generateSmartNeighbor sa retryFuel = some (sa.board.set col (Int.ofNat rv), r') ∧
      ∀ r : Nat, r < sa.n → (r : Int) ≠ sa.board.getD col 0 →
        calculateConflictsForPosition sa.n (sa.board.set col (Int.ofNat rv)) col
          ≤ calculateConflictsForPosition sa.n (sa.board.set col (Int.ofNat r)) col := by
  have hlen : 0 < (findConflictedQueens sa).length := List.length_pos.2 hconf
  have hmem : (findConflictedQueens sa).getD
      (sa.rng.ints 0 % (findConflictedQueens sa).length) 0 ∈ findConflictedQueens sa :=
    getD_mem _ _ _ (Nat.mod_lt _ hlen)
  have hcoln : (findConflictedQueens sa).getD
      (sa.rng.ints 0 % (findConflictedQueens sa).length) 0 < sa.n := by
    have := hmem
    unfold findConflictedQueens at this
    exact List.mem_range.1 (List.mem_of_mem_filter this)
  obtain ⟨rv, hrvn, hrvne, heq, hmin⟩ := scanColumn_adopts sa.n sa.board
    ((findConflictedQueens sa).getD (sa.rng.ints 0 % (findConflictedQueens sa).length) 0)
    hcoln hn (sa.rng.ints 1 % sa.n)
  refine ⟨_, hmem, rv,
    { ints := fun i => sa.rng.ints (i + 1 + 1), floats := fun i => sa.rng.floats (i + 1) },
    hrvn, hrvne, ?_, hmin⟩
  unfold generateSmartNeighbor
  dsimp only [Rng.float, Rng.intn]
  rw [if_neg (not_lt.2 hlo), if_pos hhi, if_pos hlen, heq]

end SimulatedAnnealingSolver

/-- Witness for the amended C7 at the concrete state `saC7`. -/
theorem claim_C7_amended_witness :
    ((mkRat 3 5 ≤ saC7.rng.floats 0) ∧ (saC7.rng.floats 0 < mkRat 4 5) ∧
      SimulatedAnnealingSolver.findConflictedQueens saC7 ≠ [] ∧ 2 ≤ saC7.n) ∧
    (∃ col ∈ SimulatedAnnealingSolver.findConflictedQueens saC7, ∃ rv : Nat, ∃ r' : Rng,
      rv < saC7.n ∧ (rv : Int) ≠ saC7.board.getD col 0 ∧
      SimulatedAnnealingSolver.generateSmartNeighbor saC7 10
        = some (saC7.board.set col (Int.ofNat rv), r') ∧
      ∀ r : Nat, r < saC7.n → (r : Int) ≠ saC7.board.getD col 0 →
        SimulatedAnnealingSolver.calculateConflictsForPosition saC7.n
            (saC7.board.set col (Int.ofNat rv)) col
          ≤ SimulatedAnnealingSolver.calculateConflictsForPosition saC7.n
              (saC7.board.set col (Int.ofNat r)) col) :=
  ⟨⟨by decide, by decide, by decide, by decide⟩,
    SimulatedAnnealingSolver.claim_C7_amended saC7 10 (by decide) (by decide)
      (by decide) (by decide)⟩

/-! ### Claim C3 -/

/-- Claim C3: in every greedy iteration with nonzero conflict count, the sweep
evaluates every reassignment `(col, newRow ≠ board[col])` by full-board
recount and tracks the single best one: its recorded count is a lower bound of
the current count and of every reassignment's count, and when it strictly
improves it is realized by an actual single-column reassignment whose full
recount equals the recorded count.  The loop body commits the best
reassignment exactly when it strictly improves, and otherwise reinitializes
the whole board at random; the loop is capped (`maxIterations = 10000`), and
an exhausted cap returns `false` as a normal failure. -/
theorem claim_C3 (g : GreedyState) (h0 : GreedySolver.countConflicts g.n g.board ≠ 0) :
    (GreedySolver.bestNeighbor g.n g.board (GreedySolver.countConflicts g.n g.board)).2
      ≤ GreedySolver.countConflicts g.n g.board ∧
    (∀ col < g.n, ∀ r < g.n, g.board.getD col 0 ≠ Int.ofNat r →
      (GreedySolver.bestNeighbor g.n g.board (GreedySolver.countConflicts g.n g.board)).2
        ≤ GreedySolver.countConflicts g.n (g.board.set col (Int.ofNat r))) ∧
    ((GreedySolver.bestNeighbor g.n g.board (GreedySolver.countConflicts g.n g.board)).2
        < GreedySolver.countConflicts g.n g.board →
      ∃ col < g.n, ∃ r < g.n, g.board.getD col 0 ≠ Int.ofNat r ∧
        (GreedySolver.bestNeighbor g.n g.board
          (GreedySolver.countConflicts g.n g.board)).1 = g.board.set col (Int.ofNat r) ∧
        GreedySolver.countConflicts g.n (GreedySolver.bestNeighbor g.n g.board
          (GreedySolver.countConflicts g.n g.board)).1
          = (GreedySolver.bestNeighbor g.n g.board
              (GreedySolver.countConflicts g.n g.board)).2) ∧
    (∀ fuel, (GreedySolver.bestNeighbor g.n g.board
        (GreedySolver.countConflicts g.n g.board)).2
        < GreedySolver.countConflicts g.n g.board →
      GreedySolver.solveLoop (fuel + 1) g = GreedySolver.solveLoop fuel
        { g with board := (GreedySolver.bestNeighbor g.n g.board
            (GreedySolver.countConflicts g.n g.board)).1 }) ∧
    (∀ fuel, ¬ (GreedySolver.bestNeighbor g.n g.board
        (GreedySolver.countConflicts g.n g.board)).2
        < GreedySolver.countConflicts g.n g.board →
      GreedySolver.solveLoop (fuel + 1) g
        = GreedySolver.solveLoop fuel (GreedySolver.randomInit g)) ∧
    GreedySolver.solveLoop 0 g = (false, g) ∧
    (∀ (n : Nat) (r : Rng), (NewGreedySolver n r).maxIterations = 10000) ∧
    (∀ g2 : GreedyState, GreedySolver.Solve g2
      = GreedySolver.solveLoop g2.maxIterations (GreedySolver.randomInit g2)) := by
  refine ⟨GreedySolver.bestNeighbor_snd_le _ _ _, ?_, ?_, ?_, ?_, rfl,
    fun n r => rfl, fun g2 => rfl⟩
  · intro col hc r hr hne
    exact GreedySolver.bestNeighbor_le_candidate g.n g.board _ col r hc hr hne
  · intro hlt
    rcases GreedySolver.bestNeighbor_sweepAcc g.n g.board
        (GreedySolver.countConflicts g.n g.board) with h | ⟨col, hc, r, hr, hne, h1, h2⟩
    · rw [h] at hlt
      dsimp only at hlt
      omega
    · exact ⟨col, hc, r, hr, hne, h1, h2.symm⟩
  · intro fuel hlt
    simp only [GreedySolver.solveLoop]
    rw [if_neg h0, if_neg (by omega)]
  · intro fuel hge
    simp only [GreedySolver.solveLoop]
    rw [if_neg h0, if_pos (by omega)]

/-- Witness for C3 at the concrete state `gC3` (`N = 2`, board `[0, 0]`). -/
theorem claim_C3_witness :
    GreedySolver.countConflicts gC3.n gC3.board ≠ 0 ∧
    ((GreedySolver.bestNeighbor gC3.n gC3.board (GreedySolver.countConflicts gC3.n gC3.board)).2
      ≤ GreedySolver.countConflicts gC3.n gC3.board ∧
    (∀ col < gC3.n, ∀ r < gC3.n, gC3.board.getD col 0 ≠ Int.ofNat r →
      (GreedySolver.bestNeighbor gC3.n gC3.board
        (GreedySolver.countConflicts gC3.n gC3.board)).2
        ≤ GreedySolver.countConflicts gC3.n (gC3.board.set col (Int.ofNat r))) ∧
    ((GreedySolver.bestNeighbor gC3.n gC3.board
        (GreedySolver.countConflicts gC3.n gC3.board)).2
        < GreedySolver.countConflicts gC3.n gC3.board →
      ∃ col < gC3.n, ∃ r < gC3.n, gC3.board.getD col 0 ≠ Int.ofNat r ∧
        (GreedySolver.bestNeighbor gC3.n gC3.board
          (GreedySolver.countConflicts gC3.n gC3.board)).1 = gC3.board.set col (Int.ofNat r) ∧
        GreedySolver.countConflicts gC3.n (GreedySolver.bestNeighbor gC3.n gC3.board
          (GreedySolver.countConflicts gC3.n gC3.board)).1
          = (GreedySolver.bestNeighbor gC3.n gC3.board
              (GreedySolver.countConflicts gC3.n gC3.board)).2) ∧
    (∀ fuel, (GreedySolver.bestNeighbor gC3.n gC3.board
        (GreedySolver.countConflicts gC3.n gC3.board)).2
        < GreedySolver.countConflicts gC3.n gC3.board →
      GreedySolver.solveLoop (fuel + 1) gC3 = GreedySolver.solveLoop fuel
        { gC3 with board := (GreedySolver.bestNeighbor gC3.n gC3.board
            (GreedySolver.countConflicts gC3.n gC3.board)).1 }) ∧
    (∀ fuel, ¬ (GreedySolver.bestNeighbor gC3.n gC3.board
        (GreedySolver.countConflicts gC3.n gC3.board)).2
        < GreedySolver.countConflicts gC3.n gC3.board →
      GreedySolver.solveLoop (fuel + 1) gC3
        = GreedySolver.solveLoop fuel (GreedySolver.randomInit gC3)) ∧
    GreedySolver.solveLoop 0 gC3 = (false, gC3) ∧
    (∀ (n : Nat) (r : Rng), (NewGreedySolver n r).maxIterations = 10000) ∧
    (∀ g2 : GreedyState, GreedySolver.Solve g2
      = GreedySolver.solveLoop g2.maxIterations (GreedySolver.randomInit g2))) :=
  ⟨by decide, claim_C3 gC3 (by decide)⟩

/-! ### Random permutations produce boards of the right shape -/

theorem randPerm_aux (l : List Nat) (n : Nat) (hl : ∀ x ∈ l, x < n) :
    ∀ (m : List Int) (r : Rng), m.length = n → (∀ x ∈ m, 0 ≤ x ∧ x < (n : Int)) →
      ((l.foldl (fun acc i =>
          let (j, r') := acc.2.intn (i + 1)
          let mm := acc.1
          ((mm.set i (mm.getD j 0)).set j (Int.ofNat i), r')) (m, r)).1.length = n ∧
        ∀ x ∈ (l.foldl (fun acc i =>
          let (j, r') := acc.2.intn (i + 1)
          let mm := acc.1
          ((mm.set i (mm.getD j 0)).set j (Int.ofNat i), r')) (m, r)).1, 0 ≤ x ∧ x < (n : Int)) := by
  induction l with
  | nil => intro m r h1 h2; exact ⟨h1, h2⟩
  | cons a as ih =>
    intro m r h1 h2
    rw [List.foldl_cons]
    dsimp only [Rng.intn]
    have ha : a < n := hl a (by simp)
    have hv : 0 ≤ m.getD (r.ints 0 % (a + 1)) 0 ∧ m.getD (r.ints 0 % (a + 1)) 0 < (n : Int) := by
      by_cases hin : r.ints 0 % (a + 1) < m.length
      · exact h2 _ (getD_mem m _ 0 hin)
      · rw [List.getD_eq_default _ _ (by omega)]
        constructor
        · omega
        · omega
    refine ih (fun x hx => hl x (by simp [hx])) _ _ ?_ ?_
    · simp [h1]
    · refine mem_set_preserves _ _ _ (mem_set_preserves _ _ _ h2 hv) ?_
      constructor
      · exact Int.ofNat_nonneg a
      · rw [Int.ofNat_eq_coe]; omega

theorem randPerm_length (n : Nat) (r : Rng) : (randPerm n r).1.length = n := by
  unfold randPerm
  refine (randPerm_aux (List.range' 1 (n - 1)) n ?_ (List.replicate n 0) r (by simp) ?_).1
  · intro x hx
    have := List.mem_range'_1.1 hx
    omega
  · intro x hx
    rw [List.eq_of_mem_replicate hx]
    constructor
    · omega
    · by_cases hn : 0 < n
      · omega
      · exfalso
        have : n = 0 := by omega
        rw [this] at hx
        simp at hx

theorem randPerm_entries (n : Nat) (r : Rng) :
    ∀ x ∈ (randPerm n r).1, 0 ≤ x ∧ x < (n : Int) := by
  unfold randPerm
  refine (randPerm_aux (List.range' 1 (n - 1)) n ?_ (List.replicate n 0) r (by simp) ?_).2
  · intro x hx
    have := List.mem_range'_1.1 hx
    omega
  · intro x hx
    rw [List.eq_of_mem_replicate hx]
    constructor
    · omega
    · by_cases hn : 0 < n
      · omega
      · exfalso
        have : n = 0 := by omega
        rw [this] at hx
        simp at hx

/-! ### SA neighbor generation preserves board shape -/

namespace SimulatedAnnealingSolver

theorem generateSmartNeighbor_length (sa : SAState) (rf : Nat) (nb : List Int) (r' : Rng)
    (h : generateSmartNeighbor sa rf = some (nb, r')) : nb.length = sa.board.length := by
  unfold generateSmartNeighbor at h
  dsimp only [Rng.float, Rng.intn] at h
  split_ifs at h with h1 h2 h3
  · split at h
    · cases h
    · simp only [Option.some.injEq, Prod.mk.injEq] at h
      rw [← h.1]
      simp
  · simp only [Option.some.injEq, Prod.mk.injEq] at h
    rw [← h.1]
    simp
  · simp only [Option.some.injEq, Prod.mk.injEq] at h
    rw [← h.1]
  · simp only [Option.some.injEq, Prod.mk.injEq] at h
    rw [← h.1]
    simp

theorem scanColumn_fst_shape (n : Nat) (b : List Int) (col : Nat) (init : Int × Nat) :
    (scanColumn n b col init).1 = init.1 ∨
      ∃ r < n, (scanColumn n b col init).1 = Int.ofNat r := by
  rcases scanColumn_scanAcc n b col init with h | ⟨r, hr, _, h⟩
  · rw [h]
    exact Or.inl rfl
  · rw [h]
    exact Or.inr ⟨r, hr, rfl⟩

theorem generateSmartNeighbor_entries (sa : SAState) (rf : Nat) (nb : List Int) (r' : Rng)
    (hn : 0 < sa.n) (hb : ∀ x ∈ sa.board, 0 ≤ x ∧ x < (sa.n : Int))
    (h : generateSmartNeighbor sa rf = some (nb, r')) :
    ∀ x ∈ nb, 0 ≤ x ∧ x < (sa.n : Int) := by
  have hget : ∀ i : Nat, 0 ≤ sa.board.getD i 0 ∧ sa.board.getD i 0 < (sa.n : Int) := by
    intro i
    by_cases hin : i < sa.board.length
    · exact hb _ (getD_mem sa.board i 0 hin)
    · rw [List.getD_eq_default _ _ (by omega)]
      constructor
      · omega
      · omega
  unfold generateSmartNeighbor at h
  dsimp only [Rng.float, Rng.intn] at h
  split_ifs at h with h1 h2 h3
  · split at h
    · cases h
    · rename_i pos2 r3 heq
      simp only [Option.some.injEq, Prod.mk.injEq] at h
      rw [← h.1]
      exact mem_set_preserves _ _ _ (mem_set_preserves _ _ _ hb (hget _)) (hget _)
  · simp only [Option.some.injEq, Prod.mk.injEq] at h
    rw [← h.1]
    refine mem_set_preserves _ _ _ hb ?_
    rcases scanColumn_fst_shape sa.n sa.board _
        (Int.ofNat (sa.rng.ints 1 % sa.n), sa.n * sa.n) with hs | ⟨r, hr, hs⟩
    · rw [hs]
      refine ⟨Int.ofNat_nonneg _, ?_⟩
      rw [Int.ofNat_eq_coe]
      have := Nat.mod_lt (sa.rng.ints 1) hn
      omega
    · rw [hs]
      refine ⟨Int.ofNat_nonneg _, ?_⟩
      rw [Int.ofNat_eq_coe]
      omega
  · simp only [Option.some.injEq, Prod.mk.injEq] at h
    rw [← h.1]
    exact hb
  · simp only [Option.some.injEq, Prod.mk.injEq] at h
    rw [← h.1]
    refine mem_set_preserves _ _ _ hb ?_
    rcases scanColumn_fst_shape sa.n sa.board _
        (sa.board.getD (sa.rng.ints 0 % sa.n) 0,
          calculateConflictsForPosition sa.n sa.board (sa.rng.ints 0 % sa.n)) with hs | ⟨r, hr, hs⟩
    · rw [hs]
      exact hget _
    · rw [hs]
      refine ⟨Int.ofNat_nonneg _, ?_⟩
      rw [Int.ofNat_eq_coe]
      omega

end SimulatedAnnealingSolver

namespace SimulatedAnnealingSolver

theorem saAccept_inv (expFn : Rat → Rat) (run : SARun) (neighbor : List Int) (r1 : Rng)
    (hinv : SARunInv run) (hlen : neighbor.length = run.sa.n) :
    SARunInv (saAccept expFn run neighbor r1) ∧
    (saAccept expFn run neighbor r1).sa.n = run.sa.n ∧
    ((saAccept expFn run neighbor r1).sa.board = neighbor ∨
      (saAccept expFn run neighbor r1).sa.board = run.sa.board) ∧
    ((saAccept expFn run neighbor r1).bestBoard = neighbor ∨
      (saAccept expFn run neighbor r1).bestBoard = run.bestBoard) ∧
    (saAccept expFn run neighbor r1).sa.solution = run.sa.solution ∧
    (saAccept expFn run neighbor r1).sa.solved = run.sa.solved ∧
    (saAccept expFn run neighbor r1).sa.minTemp = run.sa.minTemp ∧
    (saAccept expFn run neighbor r1).temperature = run.temperature ∧
    (saAccept expFn run neighbor r1).sa.initialTemp = run.sa.initialTemp ∧
    (saAccept expFn run neighbor r1).iter = run.iter := by
  by_cases hacc : acceptCondition expFn run neighbor (r1.floats 0)
  · obtain ⟨r2, hres⟩ := saAccept_eq_accepted expFn run neighbor r1 hacc
    rw [hres]
    by_cases hb : calculateCostForBoard run.sa.n neighbor < run.bestCost
    · rw [if_pos hb]
      exact ⟨⟨hlen, hlen, rfl, rfl⟩, rfl, Or.inl rfl, Or.inl rfl, rfl, rfl, rfl, rfl, rfl, rfl⟩
    · rw [if_neg hb]
      exact ⟨⟨hlen, hinv.2.1, rfl, hinv.2.2.2⟩, rfl, Or.inl rfl, Or.inr rfl,
        rfl, rfl, rfl, rfl, rfl, rfl⟩
  · obtain ⟨r2, hres⟩ := saAccept_eq_rejected expFn run neighbor r1 hacc
    rw [hres]
    exact ⟨⟨hinv.1, hinv.2.1, hinv.2.2.1, hinv.2.2.2⟩, rfl, Or.inr rfl, Or.inr rfl,
      rfl, rfl, rfl, rfl, rfl, rfl⟩

theorem saCool_inv (run : SARun) (hinv : SARunInv run) :
    SARunInv (saCool run) ∧
    (saCool run).sa.n = run.sa.n ∧
    ((saCool run).sa.board = run.bestBoard ∨ (saCool run).sa.board = run.sa.board) ∧
    (saCool run).bestBoard = run.bestBoard ∧
    (saCool run).sa.solution = run.sa.solution ∧
    (saCool run).sa.solved = run.sa.solved ∧
    (saCool run).sa.minTemp = run.sa.minTemp := by
  unfold saCool
  split_ifs with h
  · exact ⟨⟨hinv.2.1, hinv.2.1, hinv.2.2.2, hinv.2.2.2⟩, rfl, Or.inl rfl, rfl,
      rfl, rfl, rfl⟩
  · exact ⟨⟨hinv.1, hinv.2.1, hinv.2.2.1, hinv.2.2.2⟩, rfl, Or.inr rfl, rfl,
      rfl, rfl, rfl⟩

theorem saFinish_sound (run : SARun) (hinv : SARunInv run) :
    ((saFinish run).1 = true →
      (saFinish run).2.solution.length = run.sa.n ∧
      calculateCostForBoard run.sa.n (saFinish run).2.solution = 0) ∧
    (saFinish run).1 = decide (run.bestCost = 0) ∧
    (saFinish run).2.n = run.sa.n := by
  unfold saFinish
  split_ifs with h
  · refine ⟨fun _ => ⟨hinv.2.1, ?_⟩, by simp [h], rfl⟩
    dsimp only
    rw [← hinv.2.2.2]
    exact h
  · exact ⟨fun hc => (by cases hc), by simp [h], rfl⟩

theorem saLoop_sound (expFn : Rat → Rat) (rf : Nat) : ∀ (fuel : Nat) (run : SARun),
    SARunInv run → ∀ b st, saLoop expFn rf fuel run = some (b, st) →
      st.n = run.sa.n ∧ (b = true → st.solution.length = run.sa.n ∧
        calculateCostForBoard run.sa.n st.solution = 0) := by
  intro fuel
  induction fuel with
  | zero =>
    intro run hinv b st h
    simp only [saLoop, Option.some.injEq] at h
    have h2 : (saFinish run).2 = st := by rw [h]
    have h1 : (saFinish run).1 = b := by rw [h]
    have hfin := saFinish_sound run hinv
    refine ⟨by rw [← h2]; exact hfin.2.2, fun hb => ?_⟩
    rw [← h2]
    exact hfin.1 (h1.trans hb)
  | succ fuel ih =>
    intro run hinv b st h
    simp only [saLoop] at h
    by_cases ht : run.sa.minTemp < run.temperature
    · rw [if_pos ht] at h
      by_cases hc : run.currentCost = 0
      · rw [if_pos hc] at h
        simp only [Option.some.injEq, Prod.mk.injEq] at h
        refine ⟨by rw [← h.2], fun hb => ?_⟩
        rw [← h.2]
        refine ⟨hinv.1, ?_⟩
        dsimp only
        rw [← hinv.2.2.1]
        exact hc
      · rw [if_neg hc] at h
        split at h
        · cases h
        · rename_i neighbor r1 heq
          have hnl : neighbor.length = run.sa.n := by
            rw [generateSmartNeighbor_length run.sa rf neighbor r1 heq, hinv.1]
          have ha := saAccept_inv expFn run neighbor r1 hinv hnl
          have hcool := saCool_inv _ ha.1
          have hres := ih { saCool (saAccept expFn run neighbor r1) with
              iter := (saCool (saAccept expFn run neighbor r1)).iter + 1 } hcool.1 b st h
          rw [show ({ saCool (saAccept expFn run neighbor r1) with
              iter := (saCool (saAccept expFn run neighbor r1)).iter + 1 } : SARun).sa.n
              = run.sa.n from (hcool.2.1).trans ha.2.1] at hres
          exact hres
    · rw [if_neg ht] at h
      simp only [Option.some.injEq] at h
      have h2 : (saFinish run).2 = st := by rw [h]
      have h1 : (saFinish run).1 = b := by rw [h]
      have hfin := saFinish_sound run hinv
      refine ⟨by rw [← h2]; exact hfin.2.2, fun hb => ?_⟩
      rw [← h2]
      exact hfin.1 (h1.trans hb)

theorem saLoop_small_false (expFn : Rat → Rat) (rf : Nat) (n : Nat) (hn : n = 2 ∨ n = 3) :
    ∀ (fuel : Nat) (run : SARun), run.sa.n = n → SARunInv run → SABoardsValid run →
      ∀ b st, saLoop expFn rf fuel run = some (b, st) → b = false := by
  intro fuel
  induction fuel with
  | zero =>
    intro run hrn hinv hval b st h
    simp only [saLoop, Option.some.injEq] at h
    have h1 : (saFinish run).1 = b := by rw [h]
    have hbc : run.bestCost ≠ 0 := by
      rw [hinv.2.2.2]
      have := cost_ne_zero_small n hn run.bestBoard ⟨by rw [hinv.2.1, hrn], by rw [← hrn]; exact hval.2⟩
      rw [hrn]
      exact this
    rw [← h1, (saFinish_sound run hinv).2.1]
    simp [hbc]
  | succ fuel ih =>
    intro run hrn hinv hval b st h
    simp only [saLoop] at h
    by_cases ht : run.sa.minTemp < run.temperature
    · rw [if_pos ht] at h
      by_cases hc : run.currentCost = 0
      · exfalso
        apply cost_ne_zero_small n hn run.sa.board
          ⟨by rw [hinv.1, hrn], by rw [← hrn]; exact hval.1⟩
        rw [← hrn, ← hinv.2.2.1]
        exact hc
      · rw [if_neg hc] at h
        split at h
        · cases h
        · rename_i neighbor r1 heq
          have hnl : neighbor.length = run.sa.n := by
            rw [generateSmartNeighbor_length run.sa rf neighbor r1 heq, hinv.1]
          have hne : ∀ x ∈ neighbor, 0 ≤ x ∧ x < (run.sa.n : Int) :=
            generateSmartNeighbor_entries run.sa rf neighbor r1 (by omega) hval.1 heq
          have ha := saAccept_inv expFn run neighbor r1 hinv hnl
          have hcool := saCool_inv _ ha.1
          refine ih { saCool (saAccept expFn run neighbor r1) with
              iter := (saCool (saAccept expFn run neighbor r1)).iter + 1 }
            ((hcool.2.1.trans ha.2.1).trans hrn) hcool.1 ⟨?_, ?_⟩ b st h
          · have hn2 : ((saCool (saAccept expFn run neighbor r1)).sa.n : Int)
                = (run.sa.n : Int) := by rw [hcool.2.1, ha.2.1]
            rw [hn2]
            rcases hcool.2.2.1 with hbd | hbd
            · rw [hbd]
              rcases ha.2.2.2.1 with hb2 | hb2
              · rw [hb2]; exact hne
              · rw [hb2]; exact hval.2
            · rw [hbd]
              rcases ha.2.2.1 with hb2 | hb2
              · rw [hb2]; exact hne
              · rw [hb2]; exact hval.1
          · have hn2 : ((saCool (saAccept expFn run neighbor r1)).sa.n : Int)
                = (run.sa.n : Int) := by rw [hcool.2.1, ha.2.1]
            rw [hn2, hcool.2.2.2.1]
            rcases ha.2.2.2.1 with hb2 | hb2
            · rw [hb2]; exact hne
            · rw [hb2]; exact hval.2
    · rw [if_neg ht] at h
      simp only [Option.some.injEq] at h
      have h1 : (saFinish run).1 = b := by rw [h]
      have hbc : run.bestCost ≠ 0 := by
        rw [hinv.2.2.2]
        have := cost_ne_zero_small n hn run.bestBoard
          ⟨by rw [hinv.2.1, hrn], by rw [← hrn]; exact hval.2⟩
        rw [hrn]
        exact this
      rw [← h1, (saFinish_sound run hinv).2.1]
      simp [hbc]

end SimulatedAnnealingSolver

namespace SimulatedAnnealingSolver

theorem singleRun_sound (expFn : Rat → Rat) (rf : Nat) (sa : SAState) (b : Bool)
    (st : SAState) (h : singleRun expFn rf sa = some (b, st)) :
    st.n = sa.n ∧ (b = true → st.solution.length = sa.n ∧
      calculateCostForBoard sa.n st.solution = 0) := by
  unfold singleRun at h
  exact saLoop_sound expFn rf (smartInit sa).maxIterations
    { sa := smartInit sa, temperature := (smartInit sa).initialTemp,
      currentCost := calculateCostForBoard (smartInit sa).n (smartInit sa).board,
      bestCost := calculateCostForBoard (smartInit sa).n (smartInit sa).board,
      bestBoard := (smartInit sa).board, iter := 0 }
    ⟨randPerm_length sa.n sa.rng, randPerm_length sa.n sa.rng, rfl, rfl⟩ b st h

theorem solveRestarts_sound (expFn : Rat → Rat) (rf : Nat) : ∀ (k : Nat) (sa : SAState)
    (b : Bool) (st : SAState), solveRestarts expFn rf k sa = some (b, st) →
      b = true → st.solution.length = sa.n ∧
        calculateCostForBoard sa.n st.solution = 0 := by
  intro k
  induction k with
  | zero =>
    intro sa b st h hb
    simp only [solveRestarts, Option.some.injEq, Prod.mk.injEq] at h
    rw [hb] at h
    cases h.1
  | succ k ih =>
    intro sa b st h hb
    simp only [solveRestarts] at h
    split at h
    · cases h
    · rename_i sa' heq
      simp only [Option.some.injEq, Prod.mk.injEq] at h
      rw [← h.2]
      exact (singleRun_sound expFn rf sa true sa' heq).2 rfl
    · rename_i sa' heq
      have hn := (singleRun_sound expFn rf sa false sa' heq).1
      have := ih sa' b st h hb
      rw [hn] at this
      exact this

end SimulatedAnnealingSolver

namespace SimulatedAnnealingSolver

theorem singleRun_small_false (expFn : Rat → Rat) (rf : Nat) (n : Nat) (hn : n = 2 ∨ n = 3)
    (sa : SAState) (hsn : sa.n = n) (b : Bool) (st : SAState)
    (h : singleRun expFn rf sa = some (b, st)) : b = false := by
  unfold singleRun at h
  refine saLoop_small_false expFn rf n hn (smartInit sa).maxIterations
    { sa := smartInit sa, temperature := (smartInit sa).initialTemp,
      currentCost := calculateCostForBoard (smartInit sa).n (smartInit sa).board,
      bestCost := calculateCostForBoard (smartInit sa).n (smartInit sa).board,
      bestBoard := (smartInit sa).board, iter := 0 }
    hsn ⟨randPerm_length sa.n sa.rng, randPerm_length sa.n sa.rng, rfl, rfl⟩
    ⟨randPerm_entries sa.n sa.rng, randPerm_entries sa.n sa.rng⟩ b st h

theorem solveRestarts_small_false (expFn : Rat → Rat) (rf : Nat) (n : Nat)
    (hn : n = 2 ∨ n = 3) : ∀ (k : Nat) (sa : SAState), sa.n = n →
    ∀ b st, solveRestarts expFn rf k sa = some (b, st) → b = false := by
  intro k
  induction k with
  | zero =>
    intro sa hsn b st h
    simp only [solveRestarts, Option.some.injEq, Prod.mk.injEq] at h
    rw [← h.1]
  | succ k ih =>
    intro sa hsn b st h
    simp only [solveRestarts] at h
    split at h
    · cases h
    · rename_i sa' heq
      cases singleRun_small_false expFn rf n hn sa hsn true sa' heq
    · rename_i sa' heq
      have hn' := (singleRun_sound expFn rf sa false sa' heq).1
      exact ih sa' (hn'.trans hsn) b st h

end SimulatedAnnealingSolver

/-! ### Genetic algorithm: sorting, evaluation and shape lemmas -/

namespace GeneticSolver

theorem insertByFitness_perm (x : Individual) : ∀ l : List Individual,
    List.Perm (insertByFitness x l) (x :: l) := by
  intro l
  induction l with
  | nil => exact List.Perm.refl _
  | cons y ys ih =>
    unfold insertByFitness
    split_ifs with h
    · exact List.Perm.refl _
    · exact List.Perm.trans (List.Perm.cons y ih) (List.Perm.swap x y ys)

theorem sortByFitness_perm : ∀ l : List Individual, List.Perm (sortByFitness l) l := by
  intro l
  induction l with
  | nil => exact List.Perm.refl _
  | cons x xs ih =>
    exact List.Perm.trans (insertByFitness_perm x (sortByFitness xs))
      (List.Perm.cons x ih)

theorem evaluatePopulation_fresh (ga : GAState) :
    Fresh ga.n (evaluatePopulation ga).population := by
  intro ind hind
  unfold evaluatePopulation at hind
  dsimp only at hind
  have hmem := (sortByFitness_perm _).mem_iff.1 hind
  obtain ⟨a, _, rfl⟩ := List.mem_map.1 hmem
  rfl

theorem evaluatePopulation_popOK (ga : GAState) (h : PopOK ga.n ga.population) :
    PopOK ga.n (evaluatePopulation ga).population := by
  intro ind hind
  unfold evaluatePopulation at hind
  dsimp only at hind
  have hmem := (sortByFitness_perm _).mem_iff.1 hind
  obtain ⟨a, ha, rfl⟩ := List.mem_map.1 hmem
  exact h a ha

theorem evaluatePopulation_length (ga : GAState) :
    (evaluatePopulation ga).population.length = ga.population.length := by
  unfold evaluatePopulation
  dsimp only
  rw [(sortByFitness_perm _).length_eq, List.length_map]

theorem evaluatePopulation_fields (ga : GAState) :
    (evaluatePopulation ga).n = ga.n ∧
    (evaluatePopulation ga).populationSize = ga.populationSize ∧
    (evaluatePopulation ga).rng = ga.rng ∧
    (evaluatePopulation ga).solution = ga.solution ∧
    (evaluatePopulation ga).solved = ga.solved ∧
    (evaluatePopulation ga).maxGenerations = ga.maxGenerations ∧
    (evaluatePopulation ga).restarts = ga.restarts :=
  ⟨rfl, rfl, rfl, rfl, rfl, rfl, rfl⟩

end GeneticSolver

/-! ### Generic fold helpers for the genetic algorithm -/

theorem getD_set_self_gen {α : Type} (l : List α) (i : Nat) (a d : α) (h : i < l.length) :
    (l.set i a).getD i d = a := by
  simp [List.getD, List.getElem?_set, h]

theorem getD_set_other_gen {α : Type} (l : List α) (i j : Nat) (a d : α) (h : i ≠ j) :
    (l.set i a).getD j d = l.getD j d := by
  simp [List.getD, List.getElem?_set, h]

theorem getD_cases {α : Type} {P : α → Prop} (l : List α) (i : Nat) (d : α)
    (hmem : ∀ y ∈ l, P y) (hd : P d) : P (l.getD i d) := by
  by_cases h : i < l.length
  · exact hmem _ (getD_mem l i d h)
  · rw [List.getD_eq_default]
    · exact hd
    · omega

theorem foldl_pred_preserved {α β : Type} (P : α → Prop) (f : α → β → α)
    (hf : ∀ a b, P a → P (f a b)) :
    ∀ (l : List β) (a : α), P a → P (l.foldl f a) := by
  intro l
  induction l with
  | nil => intro a h; exact h
  | cons x xs ih => intro a h; exact ih (f a x) (hf a x h)

theorem foldl_set_cover {σ : Type} (szlen : Nat) (Q : Individual → Prop)
    (I : σ → Prop) (proj : σ → List Individual) (F : σ → Nat → σ)
    (hI : ∀ acc i, I acc → I (F acc i))
    (hF : ∀ acc i, I acc → (proj acc).length = szlen → i < szlen →
      ∃ v, proj (F acc i) = (proj acc).set i v ∧ Q v) :
    ∀ (l : List Nat) (acc : σ), (∀ i ∈ l, i < szlen) → I acc →
      (proj acc).length = szlen →
      I (l.foldl F acc) ∧
      (proj (l.foldl F acc)).length = szlen ∧
      ∀ j, j < szlen → (j ∈ l ∨ Q ((proj acc).getD j zeroIndividual)) →
        Q ((proj (l.foldl F acc)).getD j zeroIndividual) := by
  intro l
  induction l with
  | nil =>
    intro acc _ hIa hl
    refine ⟨hIa, hl, fun j hj hcov => ?_⟩
    rcases hcov with h | h
    · exact absurd h (List.not_mem_nil j)
    · exact h
  | cons i is ih =>
    intro acc hmem hIa hl
    obtain ⟨v, hset, hQ⟩ := hF acc i hIa hl (hmem i (List.mem_cons_self i is))
    have hIa' : I (F acc i) := hI acc i hIa
    have hl' : (proj (F acc i)).length = szlen := by
      rw [hset, List.length_set]; exact hl
    have hmem' : ∀ x ∈ is, x < szlen := fun x hx => hmem x (List.mem_cons_of_mem i hx)
    rw [List.foldl_cons]
    refine ⟨(ih (F acc i) hmem' hIa' hl').1, (ih (F acc i) hmem' hIa' hl').2.1,
      fun j hj hcov => ?_⟩
    refine (ih (F acc i) hmem' hIa' hl').2.2 j hj ?_
    by_cases hji : j = i
    · subst hji
      right
      rw [hset, getD_set_self_gen]
      · exact hQ
      · rw [hl]; exact hj
    · rcases hcov with hin | hQ'
      · rcases List.mem_cons.1 hin with h | h
        · exact absurd h hji
        · exact Or.inl h
      · right
        rw [hset, getD_set_other_gen]
        · exact hQ'
        · exact fun h => hji h.symm

namespace GeneticSolver

theorem orderCrossoverWith_length (n : Nat) (p1 p2 : List Int) (s e : Nat) :
    (orderCrossoverWith n p1 p2 s e).length = n := by
  unfold orderCrossoverWith
  dsimp only
  refine foldl_pred_preserved (fun (acc : List Int × Nat) => acc.1.length = n) _ ?_ _ _ ?_
  · intro a b ha
    dsimp only
    split
    · exact ha
    · dsimp only; rw [List.length_set]; exact ha
  · refine foldl_pred_preserved (fun (c : List Int) => c.length = n) _ ?_ _ _ ?_
    · intro a b ha; rw [List.length_set]; exact ha
    · simp

theorem orderCrossoverWith_entries (n : Nat) (p1 p2 : List Int) (s e : Nat) (hn : 0 < n)
    (h1 : ∀ x ∈ p1, 0 ≤ x ∧ x < (n : Int)) (h2 : ∀ x ∈ p2, 0 ≤ x ∧ x < (n : Int)) :
    ∀ x ∈ orderCrossoverWith n p1 p2 s e, 0 ≤ x ∧ x < (n : Int) := by
  have h0 : (0 : Int) ≤ 0 ∧ (0 : Int) < (n : Int) := ⟨le_refl 0, by exact_mod_cast hn⟩
  unfold orderCrossoverWith
  dsimp only
  refine foldl_pred_preserved
    (fun (acc : List Int × Nat) => ∀ x ∈ acc.1, 0 ≤ x ∧ x < (n : Int)) _ ?_ _ _ ?_
  · intro a b ha
    dsimp only
    split
    · exact ha
    · exact mem_set_preserves _ _ _ ha (getD_cases p2 _ 0 h2 h0)
  · refine foldl_pred_preserved
      (fun (c : List Int) => ∀ x ∈ c, 0 ≤ x ∧ x < (n : Int)) _ ?_ _ _ ?_
    · intro a b ha
      exact mem_set_preserves _ _ _ ha (getD_cases p1 _ 0 h1 h0)
    · intro x hx
      rw [List.eq_of_mem_replicate hx]
      exact h0

theorem smartMutation_length (ga : GAState) (c : List Int) (r : Rng) :
    (smartMutation ga c r).1.length = c.length := by
  unfold smartMutation
  dsimp only [Rng.float, Rng.intn]
  split_ifs <;> simp [List.length_set]

theorem smartMutation_entries (ga : GAState) (c : List Int) (r : Rng) (hn : 0 < ga.n)
    (h : ∀ x ∈ c, 0 ≤ x ∧ x < (ga.n : Int)) :
    ∀ x ∈ (smartMutation ga c r).1, 0 ≤ x ∧ x < (ga.n : Int) := by
  have h0 : (0 : Int) ≤ 0 ∧ (0 : Int) < (ga.n : Int) := ⟨le_refl 0, by exact_mod_cast hn⟩
  have hmod : ∀ t : Nat, (0 : Int) ≤ Int.ofNat (t % ga.n) ∧ Int.ofNat (t % ga.n) < (ga.n : Int) :=
    fun t => ⟨Int.ofNat_nonneg _, by rw [Int.ofNat_eq_coe]; exact_mod_cast Nat.mod_lt _ hn⟩
  unfold smartMutation
  dsimp only [Rng.float, Rng.intn]
  split_ifs with h1 h2 h3
  · exact mem_set_preserves _ _ _
      (mem_set_preserves _ _ _ h (getD_cases c _ 0 h h0)) (getD_cases c _ 0 h h0)
  · refine mem_set_preserves _ _ _ h ?_
    refine foldl_pred_preserved
      (fun (acc : (Int × Nat) × Rng) => 0 ≤ acc.1.1 ∧ acc.1.1 < (ga.n : Int)) _ ?_ _ _ ?_
    · intro a b ha
      dsimp only [Rng.intn]
      split_ifs with hne hlt
      · exact hmod _
      · exact ha
      · exact ha
    · exact getD_cases c _ 0 h h0
  · exact mem_set_preserves _ _ _ h (hmod _)
  · exact mem_set_preserves _ _ _ h (hmod _)

theorem tournamentSelection_mem (ga : GAState) (r : Rng)
    (hlen : ga.population.length = ga.populationSize) (hpos : 0 < ga.populationSize) :
    (tournamentSelection ga r).1 ∈ ga.population := by
  unfold tournamentSelection
  dsimp only [Rng.intn]
  refine foldl_pred_preserved (fun (acc : Individual × Rng) => acc.1 ∈ ga.population) _ ?_ _ _ ?_
  · intro a b ha
    dsimp only [Rng.intn]
    split
    · exact getD_mem _ _ _ (by rw [hlen]; exact Nat.mod_lt _ hpos)
    · exact ha
  · exact getD_mem _ _ _ (by rw [hlen]; exact Nat.mod_lt _ hpos)

end GeneticSolver

namespace GeneticSolver

theorem initializeIndividual_eq (ga : GAState) (i : Nat) :
    initializeIndividual ga i = { ga with
      population := ga.population.set i
        { chromosome := (randPerm ga.n ga.rng).1, fitness := 0 },
      rng := (randPerm ga.n ga.rng).2 } := by
  unfold initializeIndividual
  rcases h : randPerm ga.n ga.rng with ⟨p, r'⟩
  rfl

theorem initializePopulation_shape (ga : GAState)
    (hlen : ga.population.length = ga.populationSize) :
    (initializePopulation ga).n = ga.n ∧
    (initializePopulation ga).populationSize = ga.populationSize ∧
    (initializePopulation ga).maxGenerations = ga.maxGenerations ∧
    (initializePopulation ga).restarts = ga.restarts ∧
    (initializePopulation ga).population.length = ga.populationSize ∧
    PopOK ga.n (initializePopulation ga).population := by
  have hI : ∀ (g : GAState) (i : Nat),
      (g.n = ga.n ∧ g.populationSize = ga.populationSize ∧
        g.maxGenerations = ga.maxGenerations ∧ g.restarts = ga.restarts) →
      ((initializeIndividual g i).n = ga.n ∧
        (initializeIndividual g i).populationSize = ga.populationSize ∧
        (initializeIndividual g i).maxGenerations = ga.maxGenerations ∧
        (initializeIndividual g i).restarts = ga.restarts) := by
    intro g i hg
    rw [initializeIndividual_eq]
    exact hg
  have hF : ∀ (g : GAState) (i : Nat),
      (g.n = ga.n ∧ g.populationSize = ga.populationSize ∧
        g.maxGenerations = ga.maxGenerations ∧ g.restarts = ga.restarts) →
      g.population.length = ga.populationSize → i < ga.populationSize →
      ∃ v, (initializeIndividual g i).population = g.population.set i v ∧
        ChromOK ga.n v := by
    intro g i hg _ _
    rw [initializeIndividual_eq]
    refine ⟨_, rfl, ?_, ?_⟩
    · rw [randPerm_length, hg.1]
    · intro x hx
      have := randPerm_entries g.n g.rng x hx
      rw [hg.1] at this
      exact this
  have key := foldl_set_cover ga.populationSize (ChromOK ga.n)
    (fun g => g.n = ga.n ∧ g.populationSize = ga.populationSize ∧
      g.maxGenerations = ga.maxGenerations ∧ g.restarts = ga.restarts)
    GAState.population initializeIndividual hI hF
    (List.range ga.populationSize) ga
    (fun i hi => List.mem_range.1 hi) ⟨rfl, rfl, rfl, rfl⟩ hlen
  have hfold : List.foldl initializeIndividual ga (List.range ga.populationSize) =
      initializePopulation ga := rfl
  rw [hfold] at key
  refine ⟨key.1.1, key.1.2.1, key.1.2.2.1, key.1.2.2.2, key.2.1, ?_⟩
  intro ind hind
  obtain ⟨k, hk, hget⟩ := List.mem_iff_getElem.1 hind
  have hklt : k < ga.populationSize := by
    have := key.2.1
    omega
  have hch := key.2.2 k hklt (Or.inl (List.mem_range.2 hklt))
  rw [List.getD_eq_getElem _ _ hk] at hch
  rw [hget] at hch
  exact hch

theorem smartCrossover_shape (ga : GAState) (p1 p2 : Individual) (r : Rng) (hn : 0 < ga.n)
    (h1 : ChromOK ga.n p1) (h2 : ChromOK ga.n p2) :
    (smartCrossover ga p1 p2 r).1.length = ga.n ∧
    ∀ x ∈ (smartCrossover ga p1 p2 r).1, 0 ≤ x ∧ x < (ga.n : Int) := by
  unfold smartCrossover orderCrossover
  dsimp only [Rng.intn]
  exact ⟨orderCrossoverWith_length _ _ _ _ _,
    orderCrossoverWith_entries _ _ _ _ _ hn h1.2 h2.2⟩

theorem cngFill_step (ga : GAState) (hn : 0 < ga.n)
    (hlen : ga.population.length = ga.populationSize) (hpos : 0 < ga.populationSize)
    (hpop : PopOK ga.n ga.population) (acc : List Individual × Rng) (i : Nat) :
    ∃ v, (cngFill ga acc i).1 = acc.1.set i v ∧ ChromOK ga.n v := by
  unfold cngFill
  rcases hf : acc.2.float with ⟨c, r1⟩
  dsimp only
  rcases ht1 : tournamentSelection ga r1 with ⟨p1, r2⟩
  dsimp only
  rcases ht2 : tournamentSelection ga r2 with ⟨p2, r3⟩
  dsimp only
  rcases hsc : smartCrossover ga p1 p2 r3 with ⟨child, r4⟩
  dsimp only
  rcases hm : r4.float with ⟨m, r5⟩
  dsimp only
  rcases hm2 : r2.float with ⟨m2, r6⟩
  dsimp only
  have hp1 : p1 ∈ ga.population := by
    have := tournamentSelection_mem ga r1 hlen hpos
    rw [ht1] at this
    exact this
  have hp2 : p2 ∈ ga.population := by
    have := tournamentSelection_mem ga r2 hlen hpos
    rw [ht2] at this
    exact this
  have hcs := smartCrossover_shape ga p1 p2 r3 hn (hpop _ hp1) (hpop _ hp2)
  rw [hsc] at hcs
  have hchrom := hpop _ hp1
  split_ifs with hc hmu1 hmu2
  · refine ⟨_, rfl, ?_, ?_⟩
    · show (smartMutation ga child r5).1.length = ga.n
      rw [smartMutation_length]
      exact hcs.1
    · exact smartMutation_entries ga child r5 hn hcs.2
  · exact ⟨_, rfl, hcs.1, hcs.2⟩
  · refine ⟨_, rfl, ?_, ?_⟩
    · show (smartMutation ga p1.chromosome r6).1.length = ga.n
      rw [smartMutation_length]
      exact hchrom.1
    · exact smartMutation_entries ga p1.chromosome r6 hn hchrom.2
  · exact ⟨_, rfl, hchrom.1, hchrom.2⟩

theorem createNewGeneration_shape (ga : GAState) (hn : 0 < ga.n)
    (hlen : ga.population.length = ga.populationSize) (hsize : 10 ≤ ga.populationSize)
    (hpop : PopOK ga.n ga.population) :
    (createNewGeneration ga).1.length = ga.populationSize ∧
    PopOK ga.n (createNewGeneration ga).1 := by
  have hpos : 0 < ga.populationSize := by omega
  have hE : cngEliteSize ga ≤ ga.populationSize := by
    unfold cngEliteSize
    dsimp only
    split_ifs <;> omega
  have eF : ∀ (np : List Individual) (i : Nat), True → np.length = ga.populationSize →
      i < ga.populationSize →
      ∃ v, (fun np => np) (cngElite ga np i) = np.set i v ∧ ChromOK ga.n v := by
    intro np i _ _ hi
    refine ⟨_, rfl, ?_⟩
    exact hpop _ (getD_mem _ _ _ (by rw [hlen]; exact hi))
  have elite := foldl_set_cover ga.populationSize (ChromOK ga.n)
    (fun _ : List Individual => True) (fun np => np) (cngElite ga)
    (fun _ _ _ => trivial) eF
    (List.range (cngEliteSize ga)) (List.replicate ga.populationSize zeroIndividual)
    (fun i hi => lt_of_lt_of_le (List.mem_range.1 hi) hE) trivial (by simp)
  have fF : ∀ (acc : List Individual × Rng) (i : Nat), True →
      (Prod.fst acc).length = ga.populationSize → i < ga.populationSize →
      ∃ v, Prod.fst (cngFill ga acc i) = acc.1.set i v ∧ ChromOK ga.n v :=
    fun acc i _ _ _ => cngFill_step ga hn hlen hpos hpop acc i
  have fill := foldl_set_cover ga.populationSize (ChromOK ga.n)
    (fun _ : List Individual × Rng => True) Prod.fst (cngFill ga)
    (fun _ _ _ => trivial) fF
    (List.range' (cngEliteSize ga) (ga.populationSize - cngEliteSize ga))
    ((List.range (cngEliteSize ga)).foldl (cngElite ga)
      (List.replicate ga.populationSize zeroIndividual), ga.rng)
    (fun i hi => by have := List.mem_range'_1.1 hi; omega) trivial elite.2.1
  have hfold : (List.range' (cngEliteSize ga) (ga.populationSize - cngEliteSize ga)).foldl
      (cngFill ga) ((List.range (cngEliteSize ga)).foldl (cngElite ga)
        (List.replicate ga.populationSize zeroIndividual), ga.rng) =
      createNewGeneration ga := rfl
  rw [hfold] at fill
  refine ⟨fill.2.1, ?_⟩
  intro ind hind
  obtain ⟨k, hk, hget⟩ := List.mem_iff_getElem.1 hind
  have hklt : k < ga.populationSize := by
    have := fill.2.1
    omega
  have hcov : k ∈ List.range' (cngEliteSize ga) (ga.populationSize - cngEliteSize ga) ∨
      ChromOK ga.n (((List.range (cngEliteSize ga)).foldl (cngElite ga)
        (List.replicate ga.populationSize zeroIndividual)).getD k zeroIndividual) := by
    by_cases hke : k < cngEliteSize ga
    · exact Or.inr (elite.2.2 k hklt (Or.inl (List.mem_range.2 hke)))
    · exact Or.inl (List.mem_range'_1.2 ⟨by omega, by omega⟩)
  have hch := fill.2.2 k hklt hcov
  rw [List.getD_eq_getElem _ _ hk] at hch
  rw [hget] at hch
  exact hch

end GeneticSolver

namespace GeneticSolver

theorem reinitFold_inv (n ps : Nat) (l : List Nat) (g : GAState)
    (h : g.n = n ∧ g.populationSize = ps ∧ g.population.length = ps ∧
      PopOK n g.population) :
    (l.foldl initializeIndividual g).n = n ∧
    (l.foldl initializeIndividual g).populationSize = ps ∧
    (l.foldl initializeIndividual g).population.length = ps ∧
    PopOK n (l.foldl initializeIndividual g).population := by
  refine foldl_pred_preserved (fun g => g.n = n ∧ g.populationSize = ps ∧
    g.population.length = ps ∧ PopOK n g.population) _ ?_ l g h
  intro g' i hg'
  rw [initializeIndividual_eq]
  refine ⟨hg'.1, hg'.2.1, ?_, ?_⟩
  · show (g'.population.set i
      { chromosome := (randPerm g'.n g'.rng).1, fitness := 0 }).length = ps
    rw [List.length_set]
    exact hg'.2.2.1
  · intro ind hind
    rcases List.mem_or_eq_of_mem_set hind with hmem | hv
    · exact hg'.2.2.2 ind hmem
    · subst hv
      constructor
      · show (randPerm g'.n g'.rng).1.length = n
        rw [randPerm_length]
        exact hg'.1
      · intro x hx
        have := randPerm_entries g'.n g'.rng x hx
        rw [hg'.1] at this
        exact this

theorem gaFinish_sound (n : Nat) (st : GAState) (hn : st.n = n)
    (hpos : 0 < st.population.length) (hpop : PopOK n st.population) :
    (gaFinish st).2.n = n ∧
    (gaFinish st).2.populationSize = st.populationSize ∧
    (gaFinish st).2.population.length = st.population.length ∧
    ((gaFinish st).1 = true →
      (gaFinish st).2.solution.length = n ∧
      (∀ x ∈ (gaFinish st).2.solution, 0 ≤ x ∧ x < (n : Int)) ∧
      calculateFitness n (gaFinish st).2.solution = 0) := by
  have hfresh := evaluatePopulation_fresh st
  have hlen1 := evaluatePopulation_length st
  have hpop1 : PopOK n (evaluatePopulation st).population := by
    have := evaluatePopulation_popOK st (by rw [hn]; exact hpop)
    rwa [hn] at this
  have hfe := evaluatePopulation_fields st
  have hn1 : (evaluatePopulation st).n = n := by rw [hfe.1, hn]
  unfold gaFinish
  dsimp only
  split_ifs with h0
  · refine ⟨hn1, hfe.2.1, hlen1, ?_⟩
    intro _
    have hb0 : (evaluatePopulation st).population.getD 0 zeroIndividual ∈
        (evaluatePopulation st).population :=
      getD_mem _ _ _ (by omega)
    have hck := hpop1 _ hb0
    refine ⟨hck.1, hck.2, ?_⟩
    show calculateFitness n
      ((evaluatePopulation st).population.getD 0 zeroIndividual).chromosome = 0
    have hfr := hfresh _ hb0
    rw [hn] at hfr
    rw [← hfr]
    exact h0
  · exact ⟨hn1, hfe.2.1, hlen1, fun h => absurd h (by simp)⟩

theorem gaBodyPre_sound (n ps : Nat) (hps : 10 ≤ ps)
    (st : GAState) (gwi bfe : Nat)
    (hn : st.n = n) (hpsz : st.populationSize = ps)
    (hlen : st.population.length = ps) (hpop : PopOK n st.population) :
    (∀ res, gaBodyPre st gwi bfe = .finished res →
      res.2.n = n ∧ res.2.populationSize = ps ∧ res.2.population.length = ps ∧
      (res.1 = true →
        res.2.solution.length = n ∧ (∀ x ∈ res.2.solution, 0 ≤ x ∧ x < (n : Int)) ∧
        calculateFitness n res.2.solution = 0)) ∧
    (∀ st1, gaBodyPre st gwi bfe = .halted st1 →
      st1.n = n ∧ st1.populationSize = ps ∧ st1.population.length = ps ∧
      PopOK n st1.population) ∧
    (∀ st2 gwi2 bfe2, gaBodyPre st gwi bfe = .stepped st2 gwi2 bfe2 →
      st2.n = n ∧ st2.populationSize = ps ∧ st2.population.length = ps ∧
      PopOK n st2.population) := by
  have hfresh := evaluatePopulation_fresh st
  have hlen1 : (evaluatePopulation st).population.length = ps := by
    rw [evaluatePopulation_length]; exact hlen
  have hpop1 : PopOK n (evaluatePopulation st).population := by
    have := evaluatePopulation_popOK st (by rw [hn]; exact hpop)
    rwa [hn] at this
  have hfe := evaluatePopulation_fields st
  have hn1 : (evaluatePopulation st).n = n := by rw [hfe.1, hn]
  have hpsz1 : (evaluatePopulation st).populationSize = ps := by rw [hfe.2.1, hpsz]
  unfold gaBodyPre
  dsimp only
  by_cases h0 : ((evaluatePopulation st).population.getD 0 zeroIndividual).fitness = 0
  · rw [if_pos h0]
    refine ⟨?_, ?_, ?_⟩
    · intro res hres
      injection hres with h
      subst h
      refine ⟨hn1, hpsz1, hlen1, ?_⟩
      intro _
      have hb0 : (evaluatePopulation st).population.getD 0 zeroIndividual ∈
          (evaluatePopulation st).population :=
        getD_mem _ _ _ (by omega)
      have hck := hpop1 _ hb0
      refine ⟨hck.1, hck.2, ?_⟩
      show calculateFitness n
        ((evaluatePopulation st).population.getD 0 zeroIndividual).chromosome = 0
      have hfr := hfresh _ hb0
      rw [hn] at hfr
      rw [← hfr]
      exact h0
    · intro st1 hres
      exact GAOutcome.noConfusion hres
    · intro st2 g2 b2 hres
      exact GAOutcome.noConfusion hres
  · rw [if_neg h0]
    by_cases hlt : ((evaluatePopulation st).population.getD 0 zeroIndividual).fitness < bfe
    · rw [if_pos hlt]
      dsimp only
      rw [if_neg (show ¬ (50 < 0) by omega), if_neg (show ¬ (20 < 0) by omega)]
      refine ⟨?_, ?_, ?_⟩
      · intro res hres
        exact GAOutcome.noConfusion hres
      · intro st1 hres
        exact GAOutcome.noConfusion hres
      · intro st2 g2 b2 hres
        injection hres with h1 h2 h3
        subst h1
        exact ⟨hn1, hpsz1, hlen1, hpop1⟩
    · rw [if_neg hlt]
      dsimp only
      by_cases h50 : 50 < gwi + 1
      · rw [if_pos h50]
        refine ⟨?_, ?_, ?_⟩
        · intro res hres
          exact GAOutcome.noConfusion hres
        · intro st1 hres
          injection hres with h
          subst h
          exact ⟨hn1, hpsz1, hlen1, hpop1⟩
        · intro st2 g2 b2 hres
          exact GAOutcome.noConfusion hres
      · rw [if_neg h50]
        by_cases h20 : 20 < gwi + 1
        · rw [if_pos h20]
          refine ⟨?_, ?_, ?_⟩
          · intro res hres
            exact GAOutcome.noConfusion hres
          · intro st1 hres
            exact GAOutcome.noConfusion hres
          · intro st2 g2 b2 hres
            injection hres with h1 h2 h3
            subst h1
            exact reinitFold_inv n ps _ _ ⟨hn1, hpsz1, hlen1, hpop1⟩
        · rw [if_neg h20]
          refine ⟨?_, ?_, ?_⟩
          · intro res hres
            exact GAOutcome.noConfusion hres
          · intro st1 hres
            exact GAOutcome.noConfusion hres
          · intro st2 g2 b2 hres
            injection hres with h1 h2 h3
            subst h1
            exact ⟨hn1, hpsz1, hlen1, hpop1⟩

end GeneticSolver

namespace GeneticSolver

theorem gaGenStep_sound (n ps : Nat) (hps : 10 ≤ ps) (hn0 : 0 < n)
    (st : GAState) (gwi bfe : Nat)
    (hn : st.n = n) (hpsz : st.populationSize = ps)
    (hlen : st.population.length = ps) (hpop : PopOK n st.population) :
    (∀ res, gaGenStep st gwi bfe = .finished res →
      res.2.n = n ∧ res.2.populationSize = ps ∧ res.2.population.length = ps ∧
      (res.1 = true →
        res.2.solution.length = n ∧ (∀ x ∈ res.2.solution, 0 ≤ x ∧ x < (n : Int)) ∧
        calculateFitness n res.2.solution = 0)) ∧
    (∀ st1, gaGenStep st gwi bfe = .halted st1 →
      st1.n = n ∧ st1.populationSize = ps ∧ st1.population.length = ps ∧
      PopOK n st1.population) ∧
    (∀ st2 gwi2 bfe2, gaGenStep st gwi bfe = .stepped st2 gwi2 bfe2 →
      st2.n = n ∧ st2.populationSize = ps ∧ st2.population.length = ps ∧
      PopOK n st2.population) := by
  have hb := gaBodyPre_sound n ps hps st gwi bfe hn hpsz hlen hpop
  rcases hgb : gaBodyPre st gwi bfe with r0 | s0 | ⟨s0, g0, b0⟩
  · have he : gaGenStep st gwi bfe = .finished r0 := by
      unfold gaGenStep
      rw [hgb]
    refine ⟨?_, ?_, ?_⟩
    · intro res hres
      rw [he] at hres
      injection hres with h
      subst h
      exact hb.1 r0 hgb
    · intro st1 hres
      rw [he] at hres
      exact GAOutcome.noConfusion hres
    · intro st2 g2 b2 hres
      rw [he] at hres
      exact GAOutcome.noConfusion hres
  · have he : gaGenStep st gwi bfe = .halted s0 := by
      unfold gaGenStep
      rw [hgb]
    refine ⟨?_, ?_, ?_⟩
    · intro res hres
      rw [he] at hres
      exact GAOutcome.noConfusion hres
    · intro st1 hres
      rw [he] at hres
      injection hres with h
      subst h
      exact hb.2.1 s0 hgb
    · intro st2 g2 b2 hres
      rw [he] at hres
      exact GAOutcome.noConfusion hres
  · have hsf := hb.2.2 s0 g0 b0 hgb
    have he : gaGenStep st gwi bfe = .stepped
        { s0 with
          population := (createNewGeneration s0).1,
          rng := (createNewGeneration s0).2 } g0 b0 := by
      unfold gaGenStep
      rw [hgb]
    have hcng := createNewGeneration_shape s0 (by rw [hsf.1]; exact hn0)
      (by omega) (by omega) (by rw [hsf.1]; exact hsf.2.2.2)
    refine ⟨?_, ?_, ?_⟩
    · intro res hres
      rw [he] at hres
      exact GAOutcome.noConfusion hres
    · intro st1 hres
      rw [he] at hres
      exact GAOutcome.noConfusion hres
    · intro st2 g2 b2 hres
      rw [he] at hres
      injection hres with h1 h2 h3
      subst h1
      refine ⟨hsf.1, hsf.2.1, ?_, ?_⟩
      · show (createNewGeneration s0).1.length = ps
        rw [hcng.1]
        exact hsf.2.1
      · show PopOK n (createNewGeneration s0).1
        have := hcng.2
        rw [hsf.1] at this
        exact this

theorem gaGenLoop_sound (n ps : Nat) (hps : 10 ≤ ps) (hn0 : 0 < n) :
    ∀ (fuel : Nat) (st : GAState) (gwi bfe : Nat),
      st.n = n → st.populationSize = ps → st.population.length = ps →
      PopOK n st.population →
      (gaGenLoop fuel st gwi bfe).2.n = n ∧
      (gaGenLoop fuel st gwi bfe).2.populationSize = ps ∧
      (gaGenLoop fuel st gwi bfe).2.population.length = ps ∧
      ((gaGenLoop fuel st gwi bfe).1 = true →
        (gaGenLoop fuel st gwi bfe).2.solution.length = n ∧
        (∀ x ∈ (gaGenLoop fuel st gwi bfe).2.solution, 0 ≤ x ∧ x < (n : Int)) ∧
        calculateFitness n (gaGenLoop fuel st gwi bfe).2.solution = 0) := by
  intro fuel
  induction fuel with
  | zero =>
    intro st gwi bfe hn hpsz hlen hpop
    have h := gaFinish_sound n st hn (by omega) hpop
    have heq : gaGenLoop 0 st gwi bfe = gaFinish st := rfl
    rw [heq]
    exact ⟨h.1, by rw [h.2.1, hpsz], by rw [h.2.2.1, hlen], h.2.2.2⟩
  | succ f ih =>
    intro st gwi bfe hn hpsz hlen hpop
    have hstep := gaGenStep_sound n ps hps hn0 st gwi bfe hn hpsz hlen hpop
    rcases hgs : gaGenStep st gwi bfe with res | st1 | ⟨st2, gwi2, bfe2⟩
    · have heq : gaGenLoop (f + 1) st gwi bfe = res := by
        simp only [gaGenLoop, hgs]
      rw [heq]
      exact hstep.1 res hgs
    · have heq : gaGenLoop (f + 1) st gwi bfe = gaFinish st1 := by
        simp only [gaGenLoop, hgs]
      rw [heq]
      have h1 := hstep.2.1 st1 hgs
      have h := gaFinish_sound n st1 h1.1 (by omega) h1.2.2.2
      exact ⟨h.1, by rw [h.2.1, h1.2.1], by rw [h.2.2.1, h1.2.2.1], h.2.2.2⟩
    · have heq : gaGenLoop (f + 1) st gwi bfe = gaGenLoop f st2 gwi2 bfe2 := by
        simp only [gaGenLoop, hgs]
      rw [heq]
      have h1 := hstep.2.2 st2 gwi2 bfe2 hgs
      exact ih st2 gwi2 bfe2 h1.1 h1.2.1 h1.2.2.1 h1.2.2.2

theorem gaSingleRun_sound (n ps : Nat) (hps : 10 ≤ ps) (hn0 : 0 < n) (ga : GAState)
    (hn : ga.n = n) (hpsz : ga.populationSize = ps) (hlen : ga.population.length = ps) :
    (singleRun ga).2.n = n ∧
    (singleRun ga).2.populationSize = ps ∧
    (singleRun ga).2.population.length = ps ∧
    ((singleRun ga).1 = true →
      (singleRun ga).2.solution.length = n ∧
      (∀ x ∈ (singleRun ga).2.solution, 0 ≤ x ∧ x < (n : Int)) ∧
      calculateFitness n (singleRun ga).2.solution = 0) := by
  have hinit := initializePopulation_shape ga (by omega)
  unfold singleRun
  dsimp only
  refine gaGenLoop_sound n ps hps hn0 _ _ _ _ ?_ ?_ ?_ ?_
  · rw [hinit.1, hn]
  · rw [hinit.2.1, hpsz]
  · rw [hinit.2.2.2.2.1, hpsz]
  · have := hinit.2.2.2.2.2
    rwa [hn] at this

theorem gaSolveRestarts_sound (n ps : Nat) (hps : 10 ≤ ps) (hn0 : 0 < n) :
    ∀ (k : Nat) (ga : GAState), ga.n = n → ga.populationSize = ps →
      ga.population.length = ps →
      (solveRestartsGA k ga).2.n = n ∧
      ((solveRestartsGA k ga).1 = true →
        (solveRestartsGA k ga).2.solution.length = n ∧
        (∀ x ∈ (solveRestartsGA k ga).2.solution, 0 ≤ x ∧ x < (n : Int)) ∧
        calculateFitness n (solveRestartsGA k ga).2.solution = 0) := by
  intro k
  induction k with
  | zero =>
    intro ga hn hpsz hlen
    exact ⟨hn, fun h => absurd h (by simp [solveRestartsGA])⟩
  | succ f ih =>
    intro ga hn hpsz hlen
    have hsr := gaSingleRun_sound n ps hps hn0 ga hn hpsz hlen
    rcases hb : singleRun ga with ⟨b, ga'⟩
    rw [hb] at hsr
    cases b with
    | true =>
      have heq : solveRestartsGA (f + 1) ga = (true, ga') := by
        simp only [solveRestartsGA, hb]
      rw [heq]
      exact ⟨hsr.1, fun _ => hsr.2.2.2 rfl⟩
    | false =>
      have heq : solveRestartsGA (f + 1) ga = solveRestartsGA f ga' := by
        simp only [solveRestartsGA, hb]
      rw [heq]
      exact ih ga' hsr.1 hsr.2.1 hsr.2.2.1

end GeneticSolver

/-- C1: for every N ≥ 1 and every stream of random draws, whenever one of the
three heuristic solvers (greedy, simulated annealing, genetic) reports success,
the board returned by `GetSolution` has length N and no two of its queens share
a row or a diagonal (`NoConflicts`). -/
theorem claim_C1 (n : Nat) (hn : 1 ≤ n) (r : Rng) (expFn : Rat → Rat) (rf : Nat) :
    ((GreedySolver.Solve (NewGreedySolver n r)).1 = true →
      (GreedySolver.GetSolution (GreedySolver.Solve (NewGreedySolver n r)).2).length = n ∧
      NoConflicts n (GreedySolver.GetSolution (GreedySolver.Solve (NewGreedySolver n r)).2)) ∧
    (∀ b st, SimulatedAnnealingSolver.Solve expFn rf (NewSimulatedAnnealingSolver n r) =
        some (b, st) → b = true →
      (SimulatedAnnealingSolver.GetSolution st).length = n ∧
      NoConflicts n (SimulatedAnnealingSolver.GetSolution st)) ∧
    ((GeneticSolver.Solve (NewGeneticSolver n r)).1 = true →
      (GeneticSolver.GetSolution (GeneticSolver.Solve (NewGeneticSolver n r)).2).length = n ∧
      NoConflicts n (GeneticSolver.GetSolution (GeneticSolver.Solve (NewGeneticSolver n r)).2)) := by
  refine ⟨?_, ?_, ?_⟩
  · intro h
    have hg := GreedySolver.greedy_solveLoop_sound (NewGreedySolver n r).maxIterations
      (GreedySolver.randomInit (NewGreedySolver n r))
      (by
        rw [GreedySolver.randomInit_len, GreedySolver.randomInit_n]
        unfold NewGreedySolver
        dsimp only
        rw [List.length_replicate]) h
    have hn' : (GreedySolver.randomInit (NewGreedySolver n r)).n = n :=
      GreedySolver.randomInit_n (NewGreedySolver n r)
    rw [hn'] at hg
    refine ⟨hg.1, ?_⟩
    rw [← specConflicts_eq_zero_iff, ← cost_eq_specConflicts, ← countConflicts_eq_cost]
    exact hg.2
  · intro b st h hb
    have hsa := SimulatedAnnealingSolver.solveRestarts_sound expFn rf
      (NewSimulatedAnnealingSolver n r).restarts (NewSimulatedAnnealingSolver n r) b st h hb
    refine ⟨hsa.1, ?_⟩
    rw [← specConflicts_eq_zero_iff, ← cost_eq_specConflicts]
    exact hsa.2
  · intro h
    have hps : 10 ≤ (NewGeneticSolver n r).populationSize := by
      unfold NewGeneticSolver
      dsimp only
      split_ifs <;> omega
    have hlen : (NewGeneticSolver n r).population.length =
        (NewGeneticSolver n r).populationSize := by
      unfold NewGeneticSolver
      dsimp only
      rw [List.length_replicate]
    have hga := GeneticSolver.gaSolveRestarts_sound n (NewGeneticSolver n r).populationSize
      hps hn (NewGeneticSolver n r).restarts (NewGeneticSolver n r) rfl rfl hlen
    have h2 := hga.2 h
    refine ⟨h2.1, ?_⟩
    rw [← specConflicts_eq_zero_iff, ← cost_eq_specConflicts, ← fitness_eq_cost]
    exact h2.2.2

/-- Witness for C1 at N = 1 with constant random draws. -/
theorem claim_C1_witness :
    1 ≤ 1 ∧
    (((GreedySolver.Solve (NewGreedySolver 1 (constRng 0 0))).1 = true →
      (GreedySolver.GetSolution
        (GreedySolver.Solve (NewGreedySolver 1 (constRng 0 0))).2).length = 1 ∧
      NoConflicts 1 (GreedySolver.GetSolution
        (GreedySolver.Solve (NewGreedySolver 1 (constRng 0 0))).2)) ∧
    (∀ b st, SimulatedAnnealingSolver.Solve (fun _ => 0) 1
        (NewSimulatedAnnealingSolver 1 (constRng 0 0)) = some (b, st) → b = true →
      (SimulatedAnnealingSolver.GetSolution st).length = 1 ∧
      NoConflicts 1 (SimulatedAnnealingSolver.GetSolution st)) ∧
    ((GeneticSolver.Solve (NewGeneticSolver 1 (constRng 0 0))).1 = true →
      (GeneticSolver.GetSolution
        (GeneticSolver.Solve (NewGeneticSolver 1 (constRng 0 0))).2).length = 1 ∧
      NoConflicts 1 (GeneticSolver.GetSolution
        (GeneticSolver.Solve (NewGeneticSolver 1 (constRng 0 0))).2))) :=
  ⟨by decide, claim_C1 1 (by decide) (constRng 0 0) (fun _ => 0) 1⟩

namespace SimulatedAnnealingSolver

theorem drawDistinct_const_none : ∀ (fuel : Nat) (r : Rng), (∀ i, r.ints i = 0) →
    drawDistinct 2 0 fuel r = none := by
  intro fuel
  induction fuel with
  | zero => intro r _; rfl
  | succ f ih =>
    intro r h
    unfold drawDistinct
    dsimp only [Rng.intn]
    rw [h 0, Nat.zero_mod, if_pos rfl]
    exact ih _ (fun i => h (i + 1))

theorem gsn_const_none (sa : SAState) (fuel : Nat) (hn : sa.n = 2)
    (hints : ∀ i, sa.rng.ints i = 0) (hflt : sa.rng.floats 0 < mkRat 3 5) :
    generateSmartNeighbor sa fuel = none := by
  unfold generateSmartNeighbor
  dsimp only [Rng.float, Rng.intn]
  rw [if_pos hflt]
  rw [hn, hints 0, Nat.zero_mod]
  rw [drawDistinct_const_none fuel _ (fun i => hints (i + 1))]

theorem saLoop_const_none (expFn : Rat → Rat) (rf : Nat) (fuel : Nat) (run : SARun)
    (hfuel : fuel ≠ 0) (hn : run.sa.n = 2) (hints : ∀ i, run.sa.rng.ints i = 0)
    (hflt : run.sa.rng.floats 0 < mkRat 3 5)
    (htemp : run.sa.minTemp < run.temperature) (hcost : run.currentCost ≠ 0) :
    saLoop expFn rf fuel run = none := by
  cases fuel with
  | zero => exact absurd rfl hfuel
  | succ f =>
    simp only [saLoop]
    rw [if_pos htemp, if_neg hcost]
    rw [gsn_const_none run.sa rf hn hints hflt]

theorem singleRunC9_none (expFn : Rat → Rat) (rf : Nat) :
    singleRun expFn rf (NewSimulatedAnnealingSolver 2 (constRng 0 0)) = none := by
  unfold singleRun
  dsimp only
  refine saLoop_const_none expFn rf _ _ ?_ ?_ ?_ ?_ ?_ ?_
  · decide
  · decide
  · intro i
    rfl
  · decide
  · decide
  · decide

end SimulatedAnnealingSolver

theorem gaSolve_small_false (n : Nat) (hn2 : n = 2 ∨ n = 3) (r : Rng) :
    (GeneticSolver.Solve (NewGeneticSolver n r)).1 = false := by
  have hn0 : 0 < n := by rcases hn2 with rfl | rfl <;> omega
  have hps : 10 ≤ (NewGeneticSolver n r).populationSize := by
    unfold NewGeneticSolver
    dsimp only
    split_ifs <;> omega
  have hlen : (NewGeneticSolver n r).population.length =
      (NewGeneticSolver n r).populationSize := by
    unfold NewGeneticSolver
    dsimp only
    rw [List.length_replicate]
  have hga := GeneticSolver.gaSolveRestarts_sound n (NewGeneticSolver n r).populationSize
    hps hn0 (NewGeneticSolver n r).restarts (NewGeneticSolver n r) rfl rfl hlen
  by_contra h
  rw [Bool.not_eq_false] at h
  have h2 := hga.2 h
  exact cost_ne_zero_small n hn2 _ ⟨h2.1, h2.2.1⟩
    (by rw [← fitness_eq_cost]; exact h2.2.2)

/-- For every exponential model and every retry fuel bound, the
simulated-annealing solver at N = 2 on the all-zero draw stream never returns:
the swap strategy's `for pos1 == pos2` loop keeps drawing `pos2 = 0 = pos1`. -/
theorem solveC9_none (expFn : Rat → Rat) (retryFuel : Nat) :
    SimulatedAnnealingSolver.Solve expFn retryFuel
      (NewSimulatedAnnealingSolver 2 (constRng 0 0)) = none := by
  show SimulatedAnnealingSolver.solveRestarts expFn retryFuel (4 + 1)
    (NewSimulatedAnnealingSolver 2 (constRng 0 0)) = none
  simp only [SimulatedAnnealingSolver.solveRestarts,
    SimulatedAnnealingSolver.singleRunC9_none]

/-- C9 counterexample: the claim asserts that every solver terminates for every
stream of random draws at N = 2, but the simulated-annealing swap strategy
retries `pos2 = rand.Intn(sa.n)` in an unbounded loop while `pos1 == pos2`; on
the stream that always draws 0 the loop never exits, so `Solve` diverges — the
model returns `none` (no result) here at a retry budget of one million draws,
and `solveC9_none` shows the same for every budget. -/
theorem claim_C9_counterexample :
    SimulatedAnnealingSolver.Solve (fun _ => 0) 1000000
      (NewSimulatedAnnealingSolver 2 (constRng 0 0)) = none :=
  solveC9_none (fun _ => 0) 1000000

/-- C9 amended: at N = 2 and N = 3 (where no zero-conflict arrangement exists),
the greedy and genetic solvers return false on every stream of random draws
within their bounded budgets, and the simulated-annealing solver returns false
whenever it returns at all (its swap-retry loop can spin forever on adversarial
streams, so termination holds only conditionally). -/
theorem claim_C9_amended (n : Nat) (hn : n = 2 ∨ n = 3) (r : Rng) (expFn : Rat → Rat)
    (rf : Nat) :
    (GreedySolver.Solve (NewGreedySolver n r)).1 = false ∧
    (∀ b st, SimulatedAnnealingSolver.Solve expFn rf (NewSimulatedAnnealingSolver n r) =
      some (b, st) → b = false) ∧
    (GeneticSolver.Solve (NewGeneticSolver n r)).1 = false := by
  have hn0 : 0 < n := by rcases hn with rfl | rfl <;> omega
  refine ⟨?_, ?_, gaSolve_small_false n hn r⟩
  · have hb0 : ∀ x ∈ (NewGreedySolver n r).board, 0 ≤ x ∧
        x < ((NewGreedySolver n r).n : Int) := by
      intro x hx
      replace hx : x ∈ List.replicate n (0 : Int) := hx
      have hx0 : x = 0 := List.eq_of_mem_replicate hx
      subst hx0
      refine ⟨le_refl 0, ?_⟩
      show (0 : Int) < (n : Int)
      exact_mod_cast hn0
    have hv : ValidBoard n (GreedySolver.randomInit (NewGreedySolver n r)).board := by
      constructor
      · rw [GreedySolver.randomInit_len]
        show (List.replicate n (0 : Int)).length = n
        rw [List.length_replicate]
      · exact GreedySolver.randomInit_entries _ hn0 hb0
    exact GreedySolver.greedy_solveLoop_small_false n hn _
      (GreedySolver.randomInit (NewGreedySolver n r))
      (by rw [GreedySolver.randomInit_n]; rfl) hv
  · intro b st h
    exact SimulatedAnnealingSolver.solveRestarts_small_false expFn rf n hn
      (NewSimulatedAnnealingSolver n r).restarts (NewSimulatedAnnealingSolver n r) rfl b st h

/-- Witness for the amended C9 at N = 2 on the all-ones draw stream. -/
theorem claim_C9_amended_witness :
    (2 = 2 ∨ 2 = 3) ∧
    ((GreedySolver.Solve (NewGreedySolver 2 (constRng 1 0))).1 = false ∧
     (∀ b st, SimulatedAnnealingSolver.Solve (fun _ => 0) 1
        (NewSimulatedAnnealingSolver 2 (constRng 1 0)) = some (b, st) → b = false) ∧
     (GeneticSolver.Solve (NewGeneticSolver 2 (constRng 1 0))).1 = false) :=
  ⟨Or.inl rfl, claim_C9_amended 2 (Or.inl rfl) (constRng 1 0) (fun _ => 0) 1⟩

/-! ### Order crossover: permutation preservation (C5) -/

theorem rangeRows_length (n : Nat) : (rangeRows n).length = n := by
  unfold rangeRows
  rw [List.length_map, List.length_range]

theorem rangeRows_nodup (n : Nat) : (rangeRows n).Nodup := by
  unfold rangeRows
  refine List.Nodup.map_on ?_ (List.nodup_range n)
  intro x _ y _ h
  exact Int.ofNat.inj h

theorem mem_rangeRows (n : Nat) (v : Int) : v ∈ rangeRows n ↔ 0 ≤ v ∧ v < (n : Int) := by
  unfold rangeRows
  constructor
  · intro h
    obtain ⟨a, ha, rfl⟩ := List.mem_map.1 h
    have := List.mem_range.1 ha
    refine ⟨Int.ofNat_nonneg a, ?_⟩
    rw [Int.ofNat_eq_coe]
    exact_mod_cast this
  · rintro ⟨h0, hv⟩
    refine List.mem_map.2 ⟨v.toNat, List.mem_range.2 (by omega), by rw [Int.ofNat_eq_coe]; omega⟩

theorem setCyc_length (n : Nat) : ∀ (vs : List Int) (c : List Int) (b : Nat),
    (setCyc n c b vs).length = c.length := by
  intro vs
  induction vs with
  | nil => intro c b; rfl
  | cons v vs ih =>
    intro c b
    show (setCyc n (c.set (b % n) v) (b + 1) vs).length = c.length
    rw [ih, List.length_set]

theorem setCyc_getD_other (n : Nat) : ∀ (vs : List Int) (c : List Int) (b j : Nat),
    (∀ k, k < vs.length → (b + k) % n ≠ j) →
    (setCyc n c b vs).getD j 0 = c.getD j 0 := by
  intro vs
  induction vs with
  | nil => intro c b j _; rfl
  | cons v vs ih =>
    intro c b j h
    show (setCyc n (c.set (b % n) v) (b + 1) vs).getD j 0 = c.getD j 0
    have hhead : b % n ≠ j := by
      have := h 0 (by simp)
      rwa [Nat.add_zero] at this
    have htail : ∀ k, k < vs.length → (b + 1 + k) % n ≠ j := by
      intro k hk
      have := h (k + 1) (by simp; omega)
      rwa [show b + (k + 1) = b + 1 + k from by omega] at this
    rw [ih _ _ _ htail, getD_set_other _ _ _ _ hhead]

theorem setCyc_getD_at (n : Nat) (hn : 0 < n) : ∀ (vs : List Int) (c : List Int) (b : Nat),
    vs.length ≤ n → c.length = n → ∀ k, k < vs.length →
    (setCyc n c b vs).getD ((b + k) % n) 0 = vs.getD k 0 := by
  intro vs
  induction vs with
  | nil =>
    intro c b _ _ k hk
    exact absurd hk (by simp)
  | cons v vs ih =>
    intro c b hvl hcl k hk
    show (setCyc n (c.set (b % n) v) (b + 1) vs).getD ((b + k) % n) 0 = (v :: vs).getD k 0
    have hvl2 : vs.length + 1 ≤ n := by
      simpa using hvl
    cases k with
    | zero =>
      have hne : ∀ t, t < vs.length → (b + 1 + t) % n ≠ b % n := by
        intro t ht hcontra
        have h1 : Nat.ModEq n (b + (t + 1)) (b + 0) := by
          show (b + (t + 1)) % n = (b + 0) % n
          rw [show b + (t + 1) = b + 1 + t from by omega, Nat.add_zero]
          exact hcontra
        have h3 : (t + 1) % n = 0 % n := h1.add_left_cancel' b
        rw [Nat.zero_mod, Nat.mod_eq_of_lt (by omega)] at h3
        omega
      show (setCyc n (c.set (b % n) v) (b + 1) vs).getD (b % n) 0 = (v :: vs).getD 0 0
      rw [setCyc_getD_other n vs _ (b + 1) (b % n) hne,
        getD_set_self _ _ _ (by rw [hcl]; exact Nat.mod_lt _ hn)]
      rfl
    | succ k2 =>
      have hk2 : k2 < vs.length := by
        have := hk
        simp only [List.length_cons] at this
        omega
      show (setCyc n (c.set (b % n) v) (b + 1) vs).getD ((b + (k2 + 1)) % n) 0 =
        (v :: vs).getD (k2 + 1) 0
      rw [show b + (k2 + 1) = b + 1 + k2 from by omega,
        ih (c.set (b % n) v) (b + 1) (by omega) (by rw [List.length_set]; exact hcl) k2 hk2]
      rfl

theorem segFold_length (p1 : List Int) (l : List Nat) (c : List Int) :
    (l.foldl (fun c i => c.set i (p1.getD i 0)) c).length = c.length := by
  refine foldl_pred_preserved (fun c2 : List Int => c2.length = c.length) _ ?_ l c rfl
  intro a b ha
  rw [List.length_set]
  exact ha

theorem segFold_getD (p1 : List Int) : ∀ (l : List Nat) (c : List Int) (j : Nat),
    j < c.length →
    (l.foldl (fun c i => c.set i (p1.getD i 0)) c).getD j 0 =
      if j ∈ l then p1.getD j 0 else c.getD j 0 := by
  intro l
  induction l with
  | nil =>
    intro c j _
    rw [if_neg (List.not_mem_nil j)]
    rfl
  | cons i is ih =>
    intro c j hj
    rw [List.foldl_cons, ih _ _ (by rw [List.length_set]; exact hj)]
    by_cases hmem : j ∈ is
    · rw [if_pos hmem, if_pos (List.mem_cons_of_mem i hmem)]
    · rw [if_neg hmem]
      by_cases hji : j = i
      · subst hji
        rw [getD_set_self _ _ _ hj, if_pos (List.mem_cons_self _ _)]
      · rw [getD_set_other _ _ _ _ (fun h => hji h.symm), if_neg (by
          intro hc
          rcases List.mem_cons.1 hc with h | h
          · exact hji h
          · exact hmem h)]

theorem fillFold_char (n : Nat) (p2 used : List Int) (e : Nat) :
    ∀ (l : List Nat) (c : List Int) (b : Nat),
      l.foldl (fun (acc : List Int × Nat) i =>
          if p2.getD ((e + 1 + i) % n) 0 ∈ used then acc
          else (acc.1.set acc.2 (p2.getD ((e + 1 + i) % n) 0), (acc.2 + 1) % n))
        (c, b % n) =
      (setCyc n c b ((l.map fun i => p2.getD ((e + 1 + i) % n) 0).filter
          fun v => v ∉ used),
       (b + ((l.map fun i => p2.getD ((e + 1 + i) % n) 0).filter
          fun v => v ∉ used).length) % n) := by
  intro l
  induction l with
  | nil =>
    intro c b
    simp [setCyc]
  | cons i is ih =>
    intro c b
    rw [List.foldl_cons]
    simp only [List.map_cons, List.filter_cons]
    by_cases hv : p2.getD ((e + 1 + i) % n) 0 ∈ used
    · rw [if_pos hv, ih c b, if_neg (by simpa using hv)]
    · rw [if_neg hv, if_pos (by simpa using hv)]
      rw [Nat.mod_add_mod]
      rw [ih (c.set (b % n) (p2.getD ((e + 1 + i) % n) 0)) (b + 1)]
      simp only [Prod.mk.injEq]
      constructor
      · rfl
      · rw [List.length_cons, show b + 1 +
          ((is.map fun i => p2.getD ((e + 1 + i) % n) 0).filter
            fun v => v ∉ used).length = b +
          (((is.map fun i => p2.getD ((e + 1 + i) % n) 0).filter
            fun v => v ∉ used).length + 1) from by omega]

namespace GeneticSolver

theorem orderCrossoverWith_char (n : Nat) (p1 p2 : List Int) (s e : Nat) :
    orderCrossoverWith n p1 p2 s e =
      setCyc n ((List.range' s (e + 1 - s)).foldl
        (fun c i => c.set i (p1.getD i 0)) (List.replicate n 0)) (e + 1)
        (crossFills n p1 p2 s e) := by
  unfold orderCrossoverWith
  dsimp only
  rw [fillFold_char n p2 ((List.range' s (e + 1 - s)).map fun i => p1.getD i 0) e
    (List.range n) _ (e + 1)]
  rfl

end GeneticSolver

theorem nodup_getD_inj (l : List Int) (hl : l.Nodup) (i j : Nat) (hi : i < l.length)
    (hj : j < l.length) (h : l.getD i 0 = l.getD j 0) : i = j := by
  rw [List.getD_eq_getElem _ _ hi, List.getD_eq_getElem _ _ hj] at h
  have h2 : l.get ⟨i, hi⟩ = l.get ⟨j, hj⟩ := h
  have h3 := (List.Nodup.get_inj_iff hl).1 h2
  exact congrArg Fin.val h3

namespace GeneticSolver

theorem crossUsed_length (p1 : List Int) (s e : Nat) :
    (crossUsed p1 s e).length = e + 1 - s := by
  unfold crossUsed
  rw [List.length_map, List.length_range']

theorem crossUsed_nodup (n : Nat) (p1 : List Int) (hnd : p1.Nodup) (hlen : p1.length = n)
    (e : Nat) (hen : e < n) (s : Nat) :
    (crossUsed p1 s e).Nodup := by
  unfold crossUsed
  refine List.Nodup.map_on ?_ (List.nodup_range' s (e + 1 - s) 1 (by omega))
  intro x hx y hy h
  have hxr := List.mem_range'_1.1 hx
  have hyr := List.mem_range'_1.1 hy
  exact nodup_getD_inj p1 hnd x y (by omega) (by omega) h

theorem crossUsed_subset (n : Nat) (p1 : List Int) (hlen : p1.length = n) (e : Nat)
    (hen : e < n) (s : Nat) : ∀ u ∈ crossUsed p1 s e, u ∈ p1 := by
  intro u hu
  unfold crossUsed at hu
  obtain ⟨i, hi, rfl⟩ := List.mem_map.1 hu
  have hir := List.mem_range'_1.1 hi
  exact getD_mem _ _ _ (by omega)

theorem crossCyc_length (n : Nat) (p2 : List Int) (e : Nat) :
    (crossCyc n p2 e).length = n := by
  unfold crossCyc
  rw [List.length_map, List.length_range]

theorem crossCyc_perm (n : Nat) (hn : 0 < n) (p2 : List Int) (hlen : p2.length = n)
    (e : Nat) : List.Perm (crossCyc n p2 e) p2 := by
  have hchar : crossCyc n p2 e = p2.rotate ((e + 1) % n) := by
    refine List.ext_get ?_ ?_
    · rw [crossCyc_length, List.length_rotate, hlen]
    · intro i h1 h2
      have hin : i < n := by rw [crossCyc_length] at h1; exact h1
      show (List.map (fun i => p2.getD ((e + 1 + i) % n) 0) (List.range n)).get ⟨i, h1⟩ =
        (p2.rotate ((e + 1) % n)).get ⟨i, h2⟩
      rw [List.get_map, List.get_rotate, List.get_range]
      dsimp only
      rw [List.getD_eq_getElem _ _ (by rw [hlen]; exact Nat.mod_lt _ hn),
        List.get_eq_getElem]
      congr 1
      show (e + 1 + i) % n = (i + (e + 1) % n) % p2.length
      rw [hlen, Nat.add_mod_mod, Nat.add_comm i (e + 1)]
  rw [hchar]
  exact p2.rotate_perm _

theorem crossFills_length (n : Nat) (hn : 0 < n) (p1 p2 : List Int)
    (h1 : List.Perm p1 (rangeRows n)) (h2 : List.Perm p2 (rangeRows n))
    (s e : Nat) (hse : s ≤ e) (hen : e < n) :
    (crossFills n p1 p2 s e).length = n - (e + 1 - s) := by
  have hp1len : p1.length = n := by rw [h1.length_eq, rangeRows_length]
  have hp2len : p2.length = n := by rw [h2.length_eq, rangeRows_length]
  have hp1nd : p1.Nodup := h1.nodup_iff.2 (rangeRows_nodup n)
  have hcycperm := crossCyc_perm n hn p2 hp2len e
  have hcycnd : (crossCyc n p2 e).Nodup :=
    hcycperm.nodup_iff.2 (h2.nodup_iff.2 (rangeRows_nodup n))
  have husednd := crossUsed_nodup n p1 hp1nd hp1len e hen s
  have husedsub : ∀ u ∈ crossUsed p1 s e, u ∈ crossCyc n p2 e := by
    intro u hu
    have h3 : u ∈ p1 := crossUsed_subset n p1 hp1len e hen s u hu
    have h4 : u ∈ rangeRows n := h1.mem_iff.1 h3
    have h5 : u ∈ p2 := h2.mem_iff.2 h4
    exact hcycperm.mem_iff.2 h5
  have hfperm : List.Perm ((crossCyc n p2 e).filter fun v => v ∈ crossUsed p1 s e)
      (crossUsed p1 s e) := by
    refine (List.perm_ext_iff_of_nodup (List.Nodup.filter _ hcycnd) husednd).2 ?_
    intro a
    rw [List.mem_filter]
    constructor
    · rintro ⟨_, ha⟩
      simpa using ha
    · intro ha
      exact ⟨husedsub a ha, by simpa using ha⟩
  have hsplit := List.filter_append_perm
    (fun v => decide (v ∉ crossUsed p1 s e)) (crossCyc n p2 e)
  have hnotnot : ((crossCyc n p2 e).filter
        fun a => !(decide (a ∉ crossUsed p1 s e))) =
      ((crossCyc n p2 e).filter fun v => v ∈ crossUsed p1 s e) := by
    refine List.filter_congr ?_
    intro x _
    simp [decide_not]
  have hlen2 := hsplit.length_eq
  rw [List.length_append, hnotnot, crossCyc_length] at hlen2
  have hlen3 := hfperm.length_eq
  rw [crossUsed_length] at hlen3
  have hbridge : (crossFills n p1 p2 s e).length =
      ((crossCyc n p2 e).filter fun v => decide (v ∉ crossUsed p1 s e)).length := rfl
  omega

theorem fillPos_avoid (n s e : Nat) (hse : s ≤ e) (hen : e < n) (k : Nat)
    (hk : k < n - (e + 1 - s)) (i : Nat) (hsi : s ≤ i) (hie : i ≤ e) :
    (e + 1 + k) % n ≠ i := by
  by_cases hlt : e + 1 + k < n
  · rw [Nat.mod_eq_of_lt hlt]
    omega
  · have h2 : (e + 1 + k) % n = e + 1 + k - n := by
      rw [Nat.mod_eq_sub_mod (by omega), Nat.mod_eq_of_lt (by omega)]
    rw [h2]
    omega

theorem orderCrossoverWith_valid (n : Nat) (hn : 0 < n) (p1 p2 : List Int)
    (h1 : List.Perm p1 (rangeRows n)) (h2 : List.Perm p2 (rangeRows n))
    (s e : Nat) (hse : s ≤ e) (hen : e < n) :
    List.Perm (orderCrossoverWith n p1 p2 s e) (rangeRows n) ∧
    (∀ i, s ≤ i → i ≤ e → (orderCrossoverWith n p1 p2 s e).getD i 0 = p1.getD i 0) ∧
    (∀ k, k < (crossFills n p1 p2 s e).length →
      (orderCrossoverWith n p1 p2 s e).getD ((e + 1 + k) % n) 0 =
        (crossFills n p1 p2 s e).getD k 0) := by
  have hp1len : p1.length = n := by rw [h1.length_eq, rangeRows_length]
  have hp2len : p2.length = n := by rw [h2.length_eq, rangeRows_length]
  have hClen : (orderCrossoverWith n p1 p2 s e).length = n :=
    orderCrossoverWith_length n p1 p2 s e
  have hflen := crossFills_length n hn p1 p2 h1 h2 s e hse hen
  have hseglen : ((List.range' s (e + 1 - s)).foldl
      (fun c i => c.set i (p1.getD i 0)) (List.replicate n 0)).length = n := by
    rw [segFold_length, List.length_replicate]
  have hseg : ∀ i, s ≤ i → i ≤ e →
      (orderCrossoverWith n p1 p2 s e).getD i 0 = p1.getD i 0 := by
    intro i hsi hie
    rw [orderCrossoverWith_char]
    rw [setCyc_getD_other n _ _ _ i (by
      intro k hk
      rw [hflen] at hk
      exact fillPos_avoid n s e hse hen k hk i hsi hie)]
    rw [segFold_getD _ _ _ i (by rw [List.length_replicate]; omega)]
    rw [if_pos (List.mem_range'_1.2 ⟨hsi, by omega⟩)]
  have hfill : ∀ k, k < (crossFills n p1 p2 s e).length →
      (orderCrossoverWith n p1 p2 s e).getD ((e + 1 + k) % n) 0 =
        (crossFills n p1 p2 s e).getD k 0 := by
    intro k hk
    rw [orderCrossoverWith_char]
    exact setCyc_getD_at n hn _ _ (e + 1) (by omega) hseglen k hk
  refine ⟨?_, hseg, hfill⟩
  have hsub : rangeRows n ⊆ orderCrossoverWith n p1 p2 s e := by
    intro v hv
    by_cases hvused : v ∈ crossUsed p1 s e
    · obtain ⟨iv, hiv, hveq⟩ := List.mem_map.1 hvused
      have hir := List.mem_range'_1.1 hiv
      have hval : (orderCrossoverWith n p1 p2 s e).getD iv 0 = v := by
        rw [hseg iv hir.1 (by omega)]
        exact hveq
      rw [← hval]
      exact getD_mem _ _ _ (by rw [hClen]; omega)
    · have hv2 : v ∈ p2 := h2.mem_iff.2 hv
      have hv3 : v ∈ crossCyc n p2 e := (crossCyc_perm n hn p2 hp2len e).mem_iff.2 hv2
      have hv4 : v ∈ crossFills n p1 p2 s e := by
        unfold crossFills
        rw [List.mem_filter]
        exact ⟨hv3, by simpa using hvused⟩
      obtain ⟨k, hk, hkeq⟩ := List.mem_iff_getElem.1 hv4
      have hval : (orderCrossoverWith n p1 p2 s e).getD ((e + 1 + k) % n) 0 = v := by
        rw [hfill k hk, List.getD_eq_getElem _ _ hk, hkeq]
      rw [← hval]
      exact getD_mem _ _ _ (by rw [hClen]; exact Nat.mod_lt _ hn)
  have hsp := (rangeRows_nodup n).subperm hsub
  have hperm := hsp.perm_of_length_le (by rw [hClen, rangeRows_length])
  exact hperm.symm

end GeneticSolver

/-- C5: for permutation parents of length N, `orderCrossover` sorts its two
draws into a segment `[s, e]` with `s ≤ e < N` and returns a child of length N
that is again a permutation of `[0, N)`: the segment is copied verbatim from
`parent1` at the same positions, and the k-th value written by the fill loop —
`parent2`'s cyclic order after `e` with used values dropped (`crossFills`) —
lands at position `(e+1+k) mod N`. -/
theorem claim_C5 (n : Nat) (hn : 0 < n) (ga : GAState) (hga : ga.n = n)
    (p1 p2 : List Int) (r : Rng)
    (h1 : List.Perm p1 (rangeRows n)) (h2 : List.Perm p2 (rangeRows n)) :
    ∃ s e, s ≤ e ∧ e < n ∧
      (GeneticSolver.orderCrossover ga p1 p2 r).1 =
        GeneticSolver.orderCrossoverWith n p1 p2 s e ∧
      (GeneticSolver.orderCrossover ga p1 p2 r).1.length = n ∧
      List.Perm (GeneticSolver.orderCrossover ga p1 p2 r).1 (rangeRows n) ∧
      (∀ i, s ≤ i → i ≤ e →
        (GeneticSolver.orderCrossover ga p1 p2 r).1.getD i 0 = p1.getD i 0) ∧
      (∀ k, k < (GeneticSolver.crossFills n p1 p2 s e).length →
        (GeneticSolver.orderCrossover ga p1 p2 r).1.getD ((e + 1 + k) % n) 0 =
          (GeneticSolver.crossFills n p1 p2 s e).getD k 0) := by
  unfold GeneticSolver.orderCrossover
  dsimp only [Rng.intn]
  rw [hga]
  by_cases hord : r.ints 1 % n < r.ints 0 % n
  · rw [if_pos hord]
    have hv := GeneticSolver.orderCrossoverWith_valid n hn p1 p2 h1 h2
      (r.ints 1 % n) (r.ints 0 % n) (by omega) (Nat.mod_lt _ hn)
    exact ⟨r.ints 1 % n, r.ints 0 % n, by omega, Nat.mod_lt _ hn, rfl,
      GeneticSolver.orderCrossoverWith_length _ _ _ _ _, hv.1, hv.2.1, hv.2.2⟩
  · rw [if_neg hord]
    have hv := GeneticSolver.orderCrossoverWith_valid n hn p1 p2 h1 h2
      (r.ints 0 % n) (r.ints 1 % n) (by omega) (Nat.mod_lt _ hn)
    exact ⟨r.ints 0 % n, r.ints 1 % n, by omega, Nat.mod_lt _ hn, rfl,
      GeneticSolver.orderCrossoverWith_length _ _ _ _ _, hv.1, hv.2.1, hv.2.2⟩

/-- Witness for C5 at N = 2 with parents `[0, 1]` and `[1, 0]`. -/
theorem claim_C5_witness :
    0 < 2 ∧ (NewGeneticSolver 2 (constRng 0 0)).n = 2 ∧
    List.Perm [(0 : Int), 1] (rangeRows 2) ∧ List.Perm [(1 : Int), 0] (rangeRows 2) ∧
    (∃ s e, s ≤ e ∧ e < 2 ∧
      (GeneticSolver.orderCrossover (NewGeneticSolver 2 (constRng 0 0))
        [(0 : Int), 1] [(1 : Int), 0] (constRng 0 0)).1 =
        GeneticSolver.orderCrossoverWith 2 [(0 : Int), 1] [(1 : Int), 0] s e ∧
      (GeneticSolver.orderCrossover (NewGeneticSolver 2 (constRng 0 0))
        [(0 : Int), 1] [(1 : Int), 0] (constRng 0 0)).1.length = 2 ∧
      List.Perm (GeneticSolver.orderCrossover (NewGeneticSolver 2 (constRng 0 0))
        [(0 : Int), 1] [(1 : Int), 0] (constRng 0 0)).1 (rangeRows 2) ∧
      (∀ i, s ≤ i → i ≤ e →
        (GeneticSolver.orderCrossover (NewGeneticSolver 2 (constRng 0 0))
          [(0 : Int), 1] [(1 : Int), 0] (constRng 0 0)).1.getD i 0 =
          [(0 : Int), 1].getD i 0) ∧
      (∀ k, k < (GeneticSolver.crossFills 2 [(0 : Int), 1] [(1 : Int), 0] s e).length →
        (GeneticSolver.orderCrossover (NewGeneticSolver 2 (constRng 0 0))
          [(0 : Int), 1] [(1 : Int), 0] (constRng 0 0)).1.getD ((e + 1 + k) % 2) 0 =
          (GeneticSolver.crossFills 2 [(0 : Int), 1] [(1 : Int), 0] s e).getD k 0)) :=
  ⟨by decide, rfl, by decide, by decide,
    claim_C5 2 (by decide) (NewGeneticSolver 2 (constRng 0 0)) rfl
      [(0 : Int), 1] [(1 : Int), 0] (constRng 0 0) (by decide) (by decide)⟩

/-! ### Cached fitness staleness (C6) -/

theorem c6_eval : GeneticSolver.evaluatePopulation c6State =
    { c6State with population := List.replicate 80 { chromosome := [1, 0], fitness := 1 } } := by
  rfl

theorem c6_cng : GeneticSolver.createNewGeneration
    { c6State with population := List.replicate 80 { chromosome := [1, 0], fitness := 1 } } =
    (c6PopMix, rngC6) := by
  rfl

theorem c6_steady (gwi : Nat) (h : gwi ≤ 19) :
    GeneticSolver.gaGenStep c6State gwi 1 = .stepped c6State (gwi + 1) 1 := by
  have hpre : GeneticSolver.gaBodyPre c6State gwi 1 = .stepped
      { c6State with population := List.replicate 80 { chromosome := [1, 0], fitness := 1 } }
      (gwi + 1) 1 := by
    unfold GeneticSolver.gaBodyPre
    rw [c6_eval]
    dsimp only
    rw [if_neg (by decide)]
    rw [if_neg (show ¬ ((List.replicate 80
      { chromosome := ([1, 0] : List Int), fitness := 1 }).getD 0
        zeroIndividual).fitness < 1 from by decide)]
    dsimp only
    rw [if_neg (show ¬ (50 < gwi + 1) from by omega),
      if_neg (show ¬ (20 < gwi + 1) from by omega)]
    rfl
  unfold GeneticSolver.gaGenStep
  rw [hpre]
  dsimp only
  rw [c6_cng]
  rfl

/-- C6 counterexample: the claim asserts that a stale cached fitness is never
read as authoritative.  In the concrete N = 2 run driven by constant draws 64
(ints) and 0 (floats), every generation reproduces `c6State`; after 20
generations without improvement the body reinitializes the worst fifth of the
population with fresh random chromosomes whose fitness field is left at the
stale value 0 (`initializeIndividual` does not recompute it), and the very same
generation's `createNewGeneration` runs tournament selection on that
population: the selected individual's cached fitness reads 0 while the true
fitness of its chromosome `[1, 0]` is 1. -/
theorem claim_C6_counterexample :
    GeneticSolver.gaGenStep
      (GeneticSolver.initializePopulation (NewGeneticSolver 2 rngC6)) 0 4 =
      .stepped c6State 0 1 ∧
    (∀ g : Fin 20, GeneticSolver.gaGenStep c6State g.val 1 =
      .stepped c6State (g.val + 1) 1) ∧
    GeneticSolver.gaBodyPre c6State 20 1 = .stepped c6StateReinit 21 1 ∧
    (GeneticSolver.tournamentSelection c6StateReinit c6StateReinit.rng).1.fitness = 0 ∧
    GeneticSolver.calculateFitness c6StateReinit.n
      (GeneticSolver.tournamentSelection c6StateReinit c6StateReinit.rng).1.chromosome = 1 := by
  refine ⟨by rfl, ?_, by rfl, by rfl, by decide⟩
  intro g
  exact c6_steady g.val (by omega)

/-- C6 amended: the cached fitness is authoritative immediately after
`evaluatePopulation` (hence for the success check and, in a generation with at
most 20 stagnant predecessors, for the elitism copy and tournament reads of
`createNewGeneration`, whose input population is then exactly the freshly
evaluated one); after the stagnation reinitialization of the worst fifth the
rebuilt individuals carry a stale fitness 0 until the next generation's
re-evaluation. -/
theorem claim_C6_amended (ga : GAState) (gwi bfe : Nat) (st2 : GAState) (gwi2 bfe2 : Nat)
    (hgwi : gwi ≤ 19)
    (hstep : GeneticSolver.gaBodyPre ga gwi bfe = .stepped st2 gwi2 bfe2) :
    GeneticSolver.Fresh ga.n (GeneticSolver.evaluatePopulation ga).population ∧
    GeneticSolver.Fresh ga.n st2.population := by
  refine ⟨GeneticSolver.evaluatePopulation_fresh ga, ?_⟩
  unfold GeneticSolver.gaBodyPre at hstep
  dsimp only at hstep
  by_cases h0 : ((GeneticSolver.evaluatePopulation ga).population.getD 0
      zeroIndividual).fitness = 0
  · rw [if_pos h0] at hstep
    exact GeneticSolver.GAOutcome.noConfusion hstep
  · rw [if_neg h0] at hstep
    by_cases hlt : ((GeneticSolver.evaluatePopulation ga).population.getD 0
        zeroIndividual).fitness < bfe
    · rw [if_pos hlt] at hstep
      dsimp only at hstep
      rw [if_neg (show ¬ (50 < 0) from by omega),
        if_neg (show ¬ (20 < 0) from by omega)] at hstep
      injection hstep with h1 h2 h3
      subst h1
      exact GeneticSolver.evaluatePopulation_fresh ga
    · rw [if_neg hlt] at hstep
      dsimp only at hstep
      rw [if_neg (show ¬ (50 < gwi + 1) from by omega),
        if_neg (show ¬ (20 < gwi + 1) from by omega)] at hstep
      injection hstep with h1 h2 h3
      subst h1
      exact GeneticSolver.evaluatePopulation_fresh ga

/-- Witness for the amended C6 at the concrete state `c6State` in a
non-stagnant generation. -/
theorem claim_C6_amended_witness :
    (0 ≤ 19 ∧
     GeneticSolver.gaBodyPre c6State 0 1 = .stepped
       { c6State with population :=
         List.replicate 80 { chromosome := [1, 0], fitness := 1 } } 1 1) ∧
    (GeneticSolver.Fresh c6State.n
      (GeneticSolver.evaluatePopulation c6State).population ∧
     GeneticSolver.Fresh c6State.n
      ({ c6State with population :=
        List.replicate 80 { chromosome := [1, 0], fitness := 1 } } : GAState).population) :=
  ⟨⟨by omega, by rfl⟩,
    claim_C6_amended c6State 0 1
      { c6State with population := List.replicate 80 { chromosome := [1, 0], fitness := 1 } }
      1 1 (by omega) (by rfl)⟩
